import Mathlib

/-!
Verification of the LSIF backend of the unicon-lsp extension.

The definitions below are a shallow embedding of the sharded `LSIFBackend`
class (`lsifBackend.ts`): the `load` ingestion pipeline with its
current-document cursor, the "unsorted" shard and the id-offset repair pass,
and the three resolvers `getHoverData`, `getDefinitionData` and
`getReferencesData`.

Modelling conventions:
- A parsed JSON record (the result of `JSON.parse` on one NDJSON line) is a
  `Json` structure of optional fields, mirroring the dynamic object: an
  absent field is `none`.  A line of the input stream is `Option Json`,
  where `none` stands for a non-blank line that is not valid JSON (so that
  `JSON.parse` throws); blank lines are removed before the loop by
  `split('\n').filter(line => line.trim() !== '')` and are therefore not
  part of the modelled stream.
- JavaScript `===` on possibly-`undefined` fields is `Option` equality
  (`undefined === undefined` is `true`, matching `none = none`).
- A JavaScript runtime `TypeError` (reading a property of `undefined`,
  e.g. through the non-null assertion `documents.get(...)!` or an unchecked
  `hoverResult.result`) is the `Except.error ()` outcome.
- `Map` objects keyed by strings/numbers are association lists in insertion
  order (`Map` iteration order); keys are inserted at most once by the code,
  and updates rewrite every entry with the key, which preserves first-match
  lookups.  Document vertices without a `uri` or without an `id` would
  create `undefined`-keyed map entries that no later lookup with a present
  field can hit; they are modelled as skipping the entry.
- Coordinates and ids are `Int` (JavaScript numbers used integrally here).
-/

structure Pos where
  line : Int
  character : Int
deriving DecidableEq, Repr

/-- One parsed NDJSON record; every field the backend reads, each optional
as in the dynamic JavaScript object.  `result` models
`hoverResult.result.contents` as the list of the fragments' `value`
strings (`none` when the `result` field is absent). -/
structure Json where
  id : Option Int := none
  type : Option String := none
  label : Option String := none
  uri : Option String := none
  start : Option Pos := none
  end_ : Option Pos := none
  outV : Option Int := none
  inV : Option Int := none
  inVs : Option (List Int) := none
  property : Option String := none
  shard : Option Int := none
  result : Option (List String) := none
deriving DecidableEq, Repr

/-- The vertex and edge arrays of one document shard
(`{ vertices: any[]; edges: any[] }`). -/
structure DocData where
  vertices : List Json
  edges : List Json
deriving DecidableEq, Repr

def emptyDoc : DocData := ⟨[], []⟩

/-- The `LSIFDatabase`: `documents` (uri-keyed `Map`, insertion order) and
`vertexIdToDocument` (id-keyed `Map`). -/
structure Database where
  documents : List (String × DocData)
  vertexIdToDocument : List (Int × String)
deriving DecidableEq, Repr

/-- The mutable instance state of the backend that `load` touches: the
database and the `currentDocumentUri` cursor, both fields of the class and
hence persistent across `load` calls. -/
structure BackendState where
  database : Database
  currentDocumentUri : Option String
deriving DecidableEq, Repr

def initState : BackendState := ⟨⟨[], []⟩, none⟩

/-- `Map.get` on a string-keyed map: first entry with the key. -/
def alookup {β : Type} : List (String × β) → String → Option β
  | [], _ => none
  | (k, v) :: rest, u => if k = u then some v else alookup rest u

/-- `Map.get` on a number-keyed map. -/
def ilookup {β : Type} : List (Int × β) → Int → Option β
  | [], _ => none
  | (k, v) :: rest, i => if k = i then some v else ilookup rest i

/-- In-place update of the entry with key `u` (the JavaScript code mutates
the `DocData` object held in the `Map`; keys never change). -/
def updateDoc : List (String × DocData) → String → (DocData → DocData) →
    List (String × DocData)
  | [], _, _ => []
  | (k, v) :: rest, u, f => (k, if k = u then f v else v) :: updateDoc rest u f

/-- `Map.delete` of a key (keys are inserted at most once, so removing
every entry with the key coincides with removing the one entry). -/
def eraseKey : List (String × DocData) → String → List (String × DocData)
  | [], _ => []
  | (k, v) :: rest, u => if k = u then eraseKey rest u else (k, v) :: eraseKey rest u

/-- `this.database.documents.get(u)!.vertices.push(obj)` — faults (`none`)
when the entry is absent, as the non-null assertion would. -/
def pushVertex (db : Database) (u : String) (obj : Json) : Option Database :=
  match alookup db.documents u with
  | none => none
  | some _ => some { db with
      documents := updateDoc db.documents u
        (fun d => { d with vertices := d.vertices ++ [obj] }) }

/-- `this.database.documents.get(u)!.edges.push(obj)`. -/
def pushEdge (db : Database) (u : String) (obj : Json) : Option Database :=
  match alookup db.documents u with
  | none => none
  | some _ => some { db with
      documents := updateDoc db.documents u
        (fun d => { d with edges := d.edges ++ [obj] }) }

/-- First branch of the ingestion loop: a `document` vertex sets the cursor
to its uri and, when the shard is new, creates it and records `id → uri`. -/
def docStep (st : BackendState) (obj : Json) : BackendState :=
  if obj.label = some "document" ∧ obj.type = some "vertex" then
    match obj.uri with
    | some u =>
      let st' := { st with currentDocumentUri := some u }
      if (alookup st'.database.documents u).isNone then
        { st' with database :=
            { documents := st'.database.documents ++ [(u, emptyDoc)],
              vertexIdToDocument :=
                match obj.id with
                | some i => st'.database.vertexIdToDocument ++ [(i, u)]
                | none => st'.database.vertexIdToDocument } }
      else st'
    | none => { st with currentDocumentUri := none }
  else st

/-- Second branch: while the cursor is set, append the record to the
cursor's shard (`vertices` or `edges` by `type`). -/
def pushStep (st : BackendState) (obj : Json) : Option BackendState :=
  match st.currentDocumentUri with
  | none => some st
  | some u =>
    if obj.type = some "vertex" then
      (pushVertex st.database u obj).map (fun db => { st with database := db })
    else if obj.type = some "edge" then
      (pushEdge st.database u obj).map (fun db => { st with database := db })
    else some st

/-- Third branch: a `contains` edge resets the cursor to the reserved
`"unsorted"` shard, creating it if absent. -/
def containsStep (st : BackendState) (obj : Json) : BackendState :=
  if obj.label = some "contains" ∧ obj.type = some "edge" then
    let st' := { st with currentDocumentUri := some "unsorted" }
    if (alookup st'.database.documents "unsorted").isNone then
      { st' with database := { st'.database with
          documents := st'.database.documents ++ [("unsorted", emptyDoc)] } }
    else st'
  else st

/-- One iteration of `lines.forEach` on an already-parsed record. -/
def ingestLine (st : BackendState) (obj : Json) : Except Unit BackendState :=
  match pushStep (docStep st obj) obj with
  | none => .error ()
  | some st' => .ok (containsStep st' obj)

/-- Outcome of a `load` call: success, a `JSON.parse` exception (the state
built so far stays installed — mutation is in place), or a runtime
`TypeError` during processing. -/
inductive LoadResult where
  | ok (st : BackendState)
  | jsonError (st : BackendState)
  | fault
deriving DecidableEq, Repr

/-- The `lines.forEach` loop over the stream. -/
def ingestAll (st : BackendState) : List (Option Json) → LoadResult
  | [] => .ok st
  | none :: _ => .jsonError st
  | some j :: rest =>
    match ingestLine st j with
    | .error () => .fault
    | .ok st' => ingestAll st' rest

/-- `edge.shard` used as a condition: JavaScript truthiness of a number
field (`undefined` and `0` are falsy). -/
def shardTruthy : Option Int → Bool
  | none => false
  | some n => n ≠ 0

/-- `array.find(e => e.id === i)` for an id that may be `NaN`
(`edge.id - 1` when `edge.id` is `undefined` matches nothing). -/
def findById (l : List Json) (i : Option Int) : Option Json :=
  match i with
  | none => none
  | some n => l.find? (fun r => decide (r.id = some n))

/-- One iteration of the repair loop (`for (const edge of unsortedData.edges)`):
an `item` edge with a truthy `shard` that resolves through
`vertexIdToDocument` is pushed into the target shard, then the edge with id
`id-1` and the vertex with id `id-2` are looked up in the current
`"unsorted"` shard and pushed too when present. -/
def repairEdge (db : Database) (edge : Json) : Except Unit Database :=
  if edge.label = some "item" ∧ shardTruthy edge.shard then
    match edge.shard.bind (fun s => ilookup db.vertexIdToDocument s) with
    | none => .ok db
    | some targetDocUri =>
      match pushEdge db targetDocUri edge with
      | none => .error ()
      | some db1 =>
        match (alookup db1.documents "unsorted").bind
                (fun ud => findById ud.edges (edge.id.map (· - 1))) with
        | none =>
          match (alookup db1.documents "unsorted").bind
                  (fun ud => findById ud.vertices (edge.id.map (· - 2))) with
          | none => .ok db1
          | some v2 =>
            match pushVertex db1 targetDocUri v2 with
            | none => .error ()
            | some db2 => .ok db2
        | some e1 =>
          match pushEdge db1 targetDocUri e1 with
          | none => .error ()
          | some db2 =>
            match (alookup db2.documents "unsorted").bind
                    (fun ud => findById ud.vertices (edge.id.map (· - 2))) with
            | none => .ok db2
            | some v2 =>
              match pushVertex db2 targetDocUri v2 with
              | none => .error ()
              | some db3 => .ok db3
  else .ok db

/-- The repair loop over the snapshot of the unsorted shard's edge array. -/
def repairLoop (db : Database) : List Json → Except Unit Database
  | [] => .ok db
  | e :: rest =>
    match repairEdge db e with
    | .error () => .error ()
    | .ok db' => repairLoop db' rest

/-- The repair pass after the stream is consumed: run the loop when an
`"unsorted"` shard exists, then delete that shard. -/
def runRepair (db : Database) : Except Unit Database :=
  match alookup db.documents "unsorted" with
  | none => .ok db
  | some unsortedData =>
    match repairLoop db unsortedData.edges with
    | .error () => .error ()
    | .ok db' => .ok { db' with documents := eraseKey db'.documents "unsorted" }

/-- `LSIFBackend.load` on an already-split stream of lines. -/
def loadBackend (st : BackendState) (lines : List (Option Json)) : LoadResult :=
  match ingestAll st lines with
  | .ok st' =>
    match runRepair st'.database with
    | .error () => .fault
    | .ok db => .ok { st' with database := db }
  | r => r

/-- A hexadecimal digit's value, by code point: digits, then the upper and
lower letter ranges. -/
def hexVal (c : Char) : Option Nat :=
  let n := c.toNat
  if 48 ≤ n ∧ n ≤ 57 then some (n - 48)
  else if 65 ≤ n ∧ n ≤ 70 then some (n - 55)
  else if 97 ≤ n ∧ n ≤ 102 then some (n - 87)
  else none

/-- Percent-decoding of single-byte (ASCII) `%XY` escapes, such as the
`"%3A"` the code's comment mentions; multi-byte UTF-8 sequences and
malformed escapes are left as written (the resolvers' inputs in this
development use unescaped uris, on which decoding is the identity). -/
def percentDecode : List Char → List Char
  | [] => []
  | '%' :: a :: b :: rest =>
    match hexVal a, hexVal b with
    | some x, some y =>
      if 16 * x + y < 128 then Char.ofNat (16 * x + y) :: percentDecode rest
      else '%' :: a :: b :: percentDecode rest
    | _, _ => '%' :: percentDecode (a :: b :: rest)
  | c :: rest => c :: percentDecode rest

/-- `decodeURIComponent` as applied to the request uri. -/
def decodeURIComponent (s : String) : String := ⟨percentDecode s.data⟩

/-- The range-matching condition shared (textually identical) by the three
resolvers, applied to the already-incremented position:
`position.line >= range.start.line && position.line <= range.end.line &&
position.character >= range.start.character && position.character <= range.end.character`.
Field accesses fault when `start` is absent, or when `end` is absent and
the first conjunct did not already short-circuit the condition to false. -/
def rangeMatches (pos1 : Pos) (range : Json) : Except Unit Bool :=
  match range.start with
  | none => .error ()
  | some s =>
    if pos1.line < s.line then .ok false
    else
      match range.end_ with
      | none => .error ()
      | some e =>
        .ok (decide (pos1.line ≤ e.line ∧ s.character ≤ pos1.character ∧
                     pos1.character ≤ e.character))

/-- `hoverResult.result.contents.map(c => c.value).join('\n')`; faults when
the `result` field is absent. -/
def hoverText (v : Json) : Except Unit String :=
  match v.result with
  | none => .error ()
  | some contents => .ok (String.intercalate "\n" contents)

/-- Inner loop of the hover resolver's `next`-edge path: scan the shard's
edges for a `textDocument/hover` edge out of the `next` edge's target; its
target vertex is used only when present and labelled `hoverResult`. -/
def hoverEdge2Loop (docData : DocData) (edge : Json) :
    List Json → Except Unit (Option String)
  | [] => .ok none
  | e2 :: rest =>
    if e2.label = some "textDocument/hover" ∧ e2.outV = edge.inV then
      match docData.vertices.find? (fun v => decide (v.id = e2.inV)) with
      | some hv =>
        if hv.label = some "hoverResult" then
          match hoverText hv with
          | .error () => .error ()
          | .ok s => .ok (some s)
        else hoverEdge2Loop docData edge rest
      | none => hoverEdge2Loop docData edge rest
    else hoverEdge2Loop docData edge rest

/-- Edge loop of the hover resolver over a matched range: either a `next`
edge followed by a `textDocument/hover` edge, or a direct
`textDocument/hover` edge.  The direct branch performs no existence or
label check on the target vertex before reading
`hoverResult.result.contents`, so a miss there faults. -/
def hoverEdgeLoop (docData : DocData) (range : Json) :
    List Json → Except Unit (Option String)
  | [] => .ok none
  | edge :: rest =>
    if edge.label = some "next" ∧ edge.outV = range.id then
      match hoverEdge2Loop docData edge docData.edges with
      | .error () => .error ()
      | .ok (some s) => .ok (some s)
      | .ok none => hoverEdgeLoop docData range rest
    else if edge.label = some "textDocument/hover" ∧ edge.outV = range.id then
      match docData.vertices.find? (fun v => decide (v.id = edge.inV)) with
      | none => .error ()
      | some hv =>
        match hoverText hv with
        | .error () => .error ()
        | .ok s => .ok (some s)
    else hoverEdgeLoop docData range rest

/-- Range loop of the hover resolver over the `contains` edge's targets;
when a matched range yields no hover, the loop continues with the next
target. -/
def hoverRangeLoop (docData : DocData) (pos1 : Pos) :
    List Int → Except Unit (Option String)
  | [] => .ok none
  | rid :: rest =>
    match docData.vertices.find? (fun v => decide (v.id = some rid)) with
    | none => hoverRangeLoop docData pos1 rest
    | some range =>
      if range.label ≠ some "range" then hoverRangeLoop docData pos1 rest
      else
        match rangeMatches pos1 range with
        | .error () => .error ()
        | .ok false => hoverRangeLoop docData pos1 rest
        | .ok true =>
          match hoverEdgeLoop docData range docData.edges with
          | .ok none => hoverRangeLoop docData pos1 rest
          | r => r

/-- `LSIFBackend.getHoverData`.  The result triple is the returned value
(or fault), the value of `this.database` after the call, and the final
value of the mutated `position` argument. -/
def getHoverData (db : Database) (documentUri : String) (position : Pos) :
    Except Unit (Option String) × Database × Pos :=
  let uri := decodeURIComponent documentUri
  let pos1 : Pos := ⟨position.line + 1, position.character + 1⟩
  let res :=
    match alookup db.documents uri with
    | none => .ok none
    | some docData =>
      match docData.edges.find? (fun e => decide (e.label = some "contains")) with
      | none => .ok none
      | some containsEdge =>
        match containsEdge.inVs with
        | none => .error ()
        | some ids => hoverRangeLoop docData pos1 ids
  (res, db, pos1)

structure Location where
  uri : String
  rstart : Pos
  rend : Pos
deriving DecidableEq, Repr

/-- Conversion of a stored vertex's 1-based bounds to a caller-coordinate
location range (`start.line - 1`, `start.character - 1`, `end.line - 1`,
`end.character - 1`); faults when `start` or `end` is absent. -/
def convertRange (v : Json) : Except Unit (Pos × Pos) :=
  match v.start, v.end_ with
  | some s, some e =>
    .ok (⟨s.line - 1, s.character - 1⟩, ⟨e.line - 1, e.character - 1⟩)
  | _, _ => .error ()

/-- Innermost loop of the definition resolver: scan a shard's edges for
`item` edges with the reference item's `outV` and `property === "definitions"`;
for each such edge, `find` the first vertex of that shard whose id is in
the edge's target set and push one location for it, with the owning uri
resolved through `vertexIdToDocument.get(definedItem.shard) || docUri`. -/
def defInnerItems (db : Database) (docUri : String) (defData : DocData)
    (refOutV : Option Int) :
    List Location → List Json → Except Unit (List Location)
  | acc, [] => .ok acc
  | acc, definedItem :: rest =>
    if definedItem.label = some "item" ∧ definedItem.outV = refOutV ∧
        definedItem.property = some "definitions" then
      let definitionDocUri :=
        (definedItem.shard.bind (fun s => ilookup db.vertexIdToDocument s)).getD docUri
      match definedItem.inVs with
      | none => .error ()
      | some ivs =>
        match defData.vertices.find?
            (fun v => match v.id with | some i => ivs.contains i | none => false) with
        | none => defInnerItems db docUri defData refOutV acc rest
        | some rv =>
          match convertRange rv with
          | .error () => .error ()
          | .ok (s1, e1) =>
            defInnerItems db docUri defData refOutV
              (acc ++ [⟨definitionDocUri, s1, e1⟩]) rest
    else defInnerItems db docUri defData refOutV acc rest

/-- Per-document loop of the definition resolver over every shard of the
store (shards without a `contains` edge are skipped). -/
def defDocsLoop (db : Database) (refOutV : Option Int) :
    List Location → List (String × DocData) → Except Unit (List Location)
  | acc, [] => .ok acc
  | acc, (docUri, defData) :: rest =>
    match defData.edges.find? (fun e => decide (e.label = some "contains")) with
    | none => defDocsLoop db refOutV acc rest
    | some _ =>
      match defInnerItems db docUri defData refOutV acc defData.edges with
      | .error () => .error ()
      | .ok acc' => defDocsLoop db refOutV acc' rest

/-- Reference-item loop of the definition resolver: `item` edges of the
query document whose target set contains the matched range's id
(`referenceItem.inVs?.includes(range.id)`, optional chaining — an absent
`inVs` is simply no match). -/
def defRefItems (db : Database) (rangeId : Option Int) :
    List Location → List Json → Except Unit (List Location)
  | acc, [] => .ok acc
  | acc, refItem :: rest =>
    if refItem.label = some "item" ∧
        (match refItem.inVs, rangeId with
         | some l, some rid => l.contains rid
         | _, _ => false) = true then
      match defDocsLoop db refItem.outV acc db.documents with
      | .error () => .error ()
      | .ok acc' => defRefItems db rangeId acc' rest
    else defRefItems db rangeId acc rest

/-- Range loop of the definition resolver over the `contains` edge's
targets; every matching range contributes (no break). -/
def defRangeLoop (db : Database) (docData : DocData) (pos1 : Pos) :
    List Location → List Int → Except Unit (List Location)
  | acc, [] => .ok acc
  | acc, rid :: rest =>
    match docData.vertices.find? (fun v => decide (v.id = some rid)) with
    | none => defRangeLoop db docData pos1 acc rest
    | some range =>
      if range.label ≠ some "range" then defRangeLoop db docData pos1 acc rest
      else
        match rangeMatches pos1 range with
        | .error () => .error ()
        | .ok false => defRangeLoop db docData pos1 acc rest
        | .ok true =>
          match defRefItems db range.id acc docData.edges with
          | .error () => .error ()
          | .ok acc' => defRangeLoop db docData pos1 acc' rest

/-- Result value of `LSIFBackend.getDefinitionData` on the decoded uri and
the incremented position. -/
def definitionsResult (db : Database) (uri : String) (pos1 : Pos) :
    Except Unit (Option (List Location)) :=
  match alookup db.documents uri with
  | none => .ok none
  | some docData =>
    match docData.edges.find? (fun e => decide (e.label = some "contains")) with
    | none => .ok none
    | some containsEdge =>
      match containsEdge.inVs with
      | none => .error ()
      | some ids =>
        match defRangeLoop db docData pos1 [] ids with
        | .error () => .error ()
        | .ok locs => .ok (if locs.isEmpty then none else some locs)

/-- `LSIFBackend.getDefinitionData`; returns `none` when the accumulated
location list is empty. -/
def getDefinitionData (db : Database) (documentUri : String) (position : Pos) :
    Except Unit (Option (List Location)) × Database × Pos :=
  let pos1 : Pos := ⟨position.line + 1, position.character + 1⟩
  (definitionsResult db (decodeURIComponent documentUri) pos1, db, pos1)

/-- Range search of the reference resolver: first `contains` target that is
a `range` vertex containing the position (this variant breaks on the first
match). -/
def refFindRange (docData : DocData) (pos1 : Pos) :
    List Int → Except Unit (Option Json)
  | [] => .ok none
  | rid :: rest =>
    match docData.vertices.find? (fun v => decide (v.id = some rid)) with
    | none => refFindRange docData pos1 rest
    | some range =>
      if range.label = some "range" then
        match rangeMatches pos1 range with
        | .error () => .error ()
        | .ok true => .ok (some range)
        | .ok false => refFindRange docData pos1 rest
      else refFindRange docData pos1 rest

/-- Collect the locations of one reference `item` edge: every target id
that is a `range` vertex of the owning shard yields one location under the
owning uri. -/
def refRangeCollect (docData : DocData) (uri : String) :
    List Location → List Int → Except Unit (List Location)
  | acc, [] => .ok acc
  | acc, rid :: rest =>
    match docData.vertices.find?
        (fun v => decide (v.id = some rid ∧ v.label = some "range")) with
    | none => refRangeCollect docData uri acc rest
    | some rr =>
      match convertRange rr with
      | .error () => .error ()
      | .ok (s1, e1) => refRangeCollect docData uri (acc ++ [⟨uri, s1, e1⟩]) rest

/-- Location loop of the reference resolver over the collected `item`
edges: the owning document is
`vertexIdToDocument.get(itemEdge.shard) || documentUri`, where
`documentUri` is the decoded *request* uri; shards missing from the store
are skipped, and iterating an absent `inVs` faults. -/
def refLocLoop (db : Database) (reqUri : String) :
    List Location → List Json → Except Unit (List Location)
  | acc, [] => .ok acc
  | acc, itemEdge :: rest =>
    let targetDocumentUri :=
      (itemEdge.shard.bind (fun s => ilookup db.vertexIdToDocument s)).getD reqUri
    match alookup db.documents targetDocumentUri with
    | none => refLocLoop db reqUri acc rest
    | some targetDocumentData =>
      match itemEdge.inVs with
      | none => .error ()
      | some ids =>
        match refRangeCollect targetDocumentData targetDocumentUri acc ids with
        | .error () => .error ()
        | .ok acc' => refLocLoop db reqUri acc' rest

/-- The all-shards scan for `item` edges of the reference result
(`label === "item" && outV === referenceResult.id && property === 'references'`),
concatenated in shard insertion order. -/
def collectReferenceEdges (db : Database) (refResultId : Option Int) : List Json :=
  db.documents.foldl
    (fun acc kv => acc ++ kv.2.edges.filter
      (fun e => decide (e.label = some "item" ∧ e.outV = refResultId ∧
                        e.property = some "references")))
    []

/-- Result value of `LSIFBackend.getReferencesData` on the decoded uri and
the incremented position. -/
def referencesResult (db : Database) (uri : String) (pos1 : Pos) :
    Except Unit (Option (List Location)) :=
  match alookup db.documents uri with
    | none => .ok none
    | some docData =>
      match docData.edges.find? (fun e => decide (e.label = some "contains")) with
      | none => .ok none
      | some containsEdge =>
        match containsEdge.inVs with
        | none => .error ()
        | some ids =>
          match refFindRange docData pos1 ids with
          | .error () => .error ()
          | .ok none => .ok none
          | .ok (some rangeVertex) =>
            match docData.edges.find?
                (fun e => decide (e.label = some "next" ∧ e.outV = rangeVertex.id)) with
            | none => .ok none
            | some resultSetEdge =>
              match docData.vertices.find?
                  (fun v => decide (v.id = resultSetEdge.inV ∧
                                    v.label = some "resultSet")) with
              | none => .ok none
              | some resultSetVertex =>
                match docData.edges.find?
                    (fun e => decide (e.label = some "textDocument/references" ∧
                                      e.outV = resultSetVertex.id)) with
                | none => .ok none
                | some referenceEdge =>
                  match docData.vertices.find?
                      (fun v => decide (v.id = referenceEdge.inV ∧
                                        v.label = some "referenceResult")) with
                  | none => .ok none
                  | some referenceResult =>
                    let referenceEdges := collectReferenceEdges db referenceResult.id
                    if referenceEdges.isEmpty then .ok none
                    else
                      match refLocLoop db uri [] referenceEdges with
                      | .error () => .error ()
                      | .ok locs => .ok (if locs.isEmpty then none else some locs)

/-- `LSIFBackend.getReferencesData`. -/
def getReferencesData (db : Database) (documentUri : String) (position : Pos) :
    Except Unit (Option (List Location)) × Database × Pos :=
  let pos1 : Pos := ⟨position.line + 1, position.character + 1⟩
  (referencesResult db (decodeURIComponent documentUri) pos1, db, pos1)

/-! ## Spec-side description of the repair pass (for the refinement claim)

The following definitions restate §4.1 step 4 of the specification in its
own words: for every `item` edge of the unassigned shard whose `shard`
field resolves through the global id→uri map, the edge itself, the edge at
`id-1` and the vertex at `id-2` (each when present in the unassigned
shard) are copied into the target document's shard, nothing else is
migrated, and the unassigned shard is then discarded. -/

/-- The document an unassigned `item` edge migrates to, if any. -/
def resolveTarget (vmap : List (Int × String)) (e : Json) : Option String :=
  if e.label = some "item" ∧ shardTruthy e.shard then
    e.shard.bind (fun s => ilookup vmap s)
  else none

/-- The edges migrated into shard `u`: each resolving `item` edge followed
by the unassigned edge with id one less, when present. -/
def migE (vmap : List (Int × String)) (ud : DocData) (u : String) :
    List Json → List Json
  | [] => []
  | e :: es =>
    (if resolveTarget vmap e = some u then
      e :: (findById ud.edges (e.id.map (· - 1))).toList
     else []) ++ migE vmap ud u es

/-- The vertices migrated into shard `u`: for each resolving `item` edge,
the unassigned vertex with id two less, when present. -/
def migV (vmap : List (Int × String)) (ud : DocData) (u : String) :
    List Json → List Json
  | [] => []
  | e :: es =>
    (if resolveTarget vmap e = some u then
      (findById ud.vertices (e.id.map (· - 2))).toList
     else []) ++ migV vmap ud u es

/-- Per-shard effect of migrating the unassigned `item` edges `es`. -/
def contribFun (vmap : List (Int × String)) (ud : DocData) (es : List Json)
    (u : String) (d : DocData) : DocData :=
  if u = "unsorted" then d
  else ⟨d.vertices ++ migV vmap ud u es, d.edges ++ migE vmap ud u es⟩

def addContrib (vmap : List (Int × String)) (ud : DocData) (es : List Json) :
    List (String × DocData) → List (String × DocData)
  | [] => []
  | (k, v) :: rest => (k, contribFun vmap ud es k v) :: addContrib vmap ud es rest

/-- The repair pass as the specification words it: migrate each resolving
`item` edge of the unassigned shard together with its `id-1` edge and
`id-2` vertex into the target shard, touch nothing else, then discard the
unassigned shard. -/
def repairSpec (db : Database) : Database :=
  match alookup db.documents "unsorted" with
  | none => db
  | some ud =>
    { db with documents :=
        eraseKey (addContrib db.vertexIdToDocument ud ud.edges db.documents) "unsorted" }

/-! ## Concrete records and stores used by witnesses and counterexamples -/

/-- A `document` vertex with uri `"u"`. -/
def docV : Json := { id := some 1, type := some "vertex", label := some "document", uri := some "u" }

/-- A `range` vertex spanning store coordinates (1,1)–(1,5). -/
def rangeV : Json := { id := some 2, type := some "vertex", label := some "range",
                       start := some ⟨1, 1⟩, end_ := some ⟨1, 5⟩ }

/-- The `contains` edge of document `"u"`. -/
def containsE : Json := { id := some 3, type := some "edge", label := some "contains",
                          outV := some 1, inVs := some [2] }

/-- A vertex record that is not a document (used as a plain in-stream record). -/
def plainV : Json := { id := some 4, type := some "vertex", label := some "range" }

/-- A record with no `type` field at all. -/
def noTypeV : Json := { id := some 5, label := some "range" }

/-- A direct `textDocument/hover` edge out of the range, pointing at a
vertex id that does not exist in the store. -/
def hoverDanglingE : Json := { id := some 7, type := some "edge",
                               label := some "textDocument/hover", outV := some 2, inV := some 99 }

/-- Store for the hover fault: matched range with a direct hover edge whose
target vertex is absent. -/
def dbC3 : Database :=
  ⟨[("u", ⟨[docV, rangeV], [containsE, hoverDanglingE]⟩)], [(1, "u")]⟩

/-- A vertex with the dangling id but labelled `resultSet` and carrying no
`result` field. -/
def notHoverV : Json := { id := some 99, type := some "vertex", label := some "resultSet" }

/-- Store for the hover fault: the direct hover edge's target exists but is
not a `hoverResult`. -/
def dbC3b : Database :=
  ⟨[("u", ⟨[docV, rangeV, notHoverV], [containsE, hoverDanglingE]⟩)], [(1, "u")]⟩

/-- Healthy single-document store covering the full hover, definition, and
reference chains (document `"a"`, range (2,2)–(2,6), resultSet, both
results). -/
def docA : Json := { id := some 1, type := some "vertex", label := some "document", uri := some "a" }
def rangeA : Json := { id := some 2, type := some "vertex", label := some "range",
                       start := some ⟨2, 2⟩, end_ := some ⟨2, 6⟩ }
def rsV : Json := { id := some 3, type := some "vertex", label := some "resultSet" }
def rrV : Json := { id := some 4, type := some "vertex", label := some "referenceResult" }
def hovV : Json := { id := some 5, type := some "vertex", label := some "hoverResult",
                     result := some ["x"] }
def containsA : Json := { id := some 10, type := some "edge", label := some "contains",
                          outV := some 1, inVs := some [2] }
def nextE : Json := { id := some 11, type := some "edge", label := some "next",
                      outV := some 2, inV := some 3 }
def hoverE2 : Json := { id := some 12, type := some "edge", label := some "textDocument/hover",
                        outV := some 3, inV := some 5 }
def refE : Json := { id := some 13, type := some "edge", label := some "textDocument/references",
                     outV := some 3, inV := some 4 }
def itemRef : Json := { id := some 14, type := some "edge", label := some "item",
                        outV := some 4, inVs := some [2], property := some "references",
                        shard := some 1 }
def itemDef : Json := { id := some 15, type := some "edge", label := some "item",
                        outV := some 4, inVs := some [2], property := some "definitions",
                        shard := some 1 }

def dbGood : Database :=
  ⟨[("a", ⟨[docA, rangeA, rsV, rrV, hovV],
           [containsA, nextE, hoverE2, refE, itemRef, itemDef]⟩)], [(1, "a")]⟩

/-- Store for the definition fan-out counterexample: one matched range
(id 2) and one `definitions` item edge targeting the two ranges 10 and 11,
both of them targets of the document's `contains` edge. -/
def docU6 : Json := { id := some 1, type := some "vertex", label := some "document", uri := some "u" }
def rq6 : Json := { id := some 2, type := some "vertex", label := some "range",
                    start := some ⟨1, 1⟩, end_ := some ⟨1, 5⟩ }
def r10 : Json := { id := some 10, type := some "vertex", label := some "range",
                    start := some ⟨2, 1⟩, end_ := some ⟨2, 3⟩ }
def r11 : Json := { id := some 11, type := some "vertex", label := some "range",
                    start := some ⟨3, 1⟩, end_ := some ⟨3, 3⟩ }
def containsU6 : Json := { id := some 20, type := some "edge", label := some "contains",
                           outV := some 1, inVs := some [2, 10, 11] }
def refItemC6 : Json := { id := some 21, type := some "edge", label := some "item",
                          outV := some 100, inVs := some [2] }
def defItemC6 : Json := { id := some 22, type := some "edge", label := some "item",
                          outV := some 100, property := some "definitions",
                          inVs := some [10, 11] }

def dbC6 : Database :=
  ⟨[("u", ⟨[docU6, rq6, r10, r11], [containsU6, refItemC6, defItemC6]⟩)], [(1, "u")]⟩

/-- Two-document store for the reference-fallback counterexample: the
`item` edge carrying the reference lives in shard `"b"` and has no `shard`
field; both shards hold a `range` vertex with the target id 20, with
different bounds. -/
def docB : Json := { id := some 6, type := some "vertex", label := some "document", uri := some "b" }
def rA20 : Json := { id := some 20, type := some "vertex", label := some "range",
                     start := some ⟨99, 1⟩, end_ := some ⟨99, 5⟩ }
def rB20 : Json := { id := some 20, type := some "vertex", label := some "range",
                     start := some ⟨7, 1⟩, end_ := some ⟨7, 4⟩ }
def containsB : Json := { id := some 30, type := some "edge", label := some "contains",
                          outV := some 6, inVs := some [20] }
def itemB : Json := { id := some 31, type := some "edge", label := some "item",
                      outV := some 4, inVs := some [20], property := some "references" }
def rangeA7 : Json := { id := some 2, type := some "vertex", label := some "range",
                        start := some ⟨1, 1⟩, end_ := some ⟨1, 5⟩ }
def containsA7 : Json := { id := some 32, type := some "edge", label := some "contains",
                           outV := some 1, inVs := some [2] }

def dbC7 : Database :=
  ⟨[("a", ⟨[docA, rangeA7, rsV, rrV, rA20], [containsA7, nextE, refE]⟩),
    ("b", ⟨[docB, rB20], [containsB, itemB]⟩)],
   [(1, "a"), (6, "b")]⟩

/-- Store with an unassigned shard holding a resolvable `item` edge (id 10)
preceded by its `next` edge (id 9) and `resultSet` vertex (id 8). -/
def vRS : Json := { id := some 8, type := some "vertex", label := some "resultSet" }
def eNext : Json := { id := some 9, type := some "edge", label := some "next",
                      outV := some 2, inV := some 8 }
def eItem : Json := { id := some 10, type := some "edge", label := some "item",
                      outV := some 8, inVs := some [2], property := some "references",
                      shard := some 1 }

def dbRepair : Database :=
  ⟨[("a", ⟨[docA], []⟩), ("unsorted", ⟨[vRS], [eNext, eItem]⟩)], [(1, "a")]⟩


/-- The `item` edges of a shard scan that carry the reference item's `outV`
and `property === "definitions"`. -/
def countDefEdges (refOutV : Option Int) (items : List Json) : Nat :=
  (items.filter (fun e => decide (e.label = some "item" ∧ e.outV = refOutV ∧
                                  e.property = some "definitions"))).length

/-- One shard's records extend another's: the later arrays are the earlier
ones with records appended at the end. -/
def DocExtends (d d' : DocData) : Prop :=
  (∃ t, d'.vertices = d.vertices ++ t) ∧ (∃ t, d'.edges = d.edges ++ t)

/-- A store extends another: every document shard other than the reserved
unassigned one keeps all its records (new ones only appended), and every
id→uri entry survives. -/
def Extends (db db' : Database) : Prop :=
  (∀ u d, u ≠ "unsorted" → alookup db.documents u = some d →
     ∃ d', alookup db'.documents u = some d' ∧ DocExtends d d') ∧
  (∀ i v, ilookup db.vertexIdToDocument i = some v →
     ilookup db'.vertexIdToDocument i = some v)

/-! ## Association-list lemmas -/

theorem alookup_append_of_some {β : Type} {l m : List (String × β)} {u : String}
    {d : β} (h : alookup l u = some d) : alookup (l ++ m) u = some d := by
  induction l with
  | nil => simp [alookup] at h
  | cons kv rest ih =>
    obtain ⟨k, v⟩ := kv
    simp only [alookup, List.cons_append] at h ⊢
    split at h
    · rename_i hk
      rw [if_pos hk]
      exact h
    · rename_i hne
      rw [if_neg hne]
      exact ih h

theorem ilookup_append_of_some {β : Type} {l m : List (Int × β)} {i : Int}
    {v : β} (h : ilookup l i = some v) : ilookup (l ++ m) i = some v := by
  induction l with
  | nil => simp [ilookup] at h
  | cons kv rest ih =>
    obtain ⟨k, w⟩ := kv
    simp only [ilookup, List.cons_append] at h ⊢
    split at h
    · rename_i hk
      rw [if_pos hk]
      exact h
    · rename_i hne
      rw [if_neg hne]
      exact ih h

theorem alookup_updateDoc_self (l : List (String × DocData)) (u : String)
    (f : DocData → DocData) :
    alookup (updateDoc l u f) u = (alookup l u).map f := by
  induction l with
  | nil => simp [alookup, updateDoc]
  | cons kv rest ih =>
    obtain ⟨k, v⟩ := kv
    by_cases h : k = u
    · subst h
      simp [updateDoc, alookup]
    · simp [updateDoc, alookup, h, ih]

theorem alookup_updateDoc_ne (l : List (String × DocData)) (u u' : String)
    (f : DocData → DocData) (h : u' ≠ u) :
    alookup (updateDoc l u f) u' = alookup l u' := by
  induction l with
  | nil => simp [alookup, updateDoc]
  | cons kv rest ih =>
    obtain ⟨k, v⟩ := kv
    by_cases hk' : k = u'
    · subst hk'
      have : ¬(k = u) := fun he => h (he ▸ rfl)
      simp [updateDoc, alookup, this]
    · simp [updateDoc, alookup, hk', ih]

theorem alookup_eraseKey_ne (l : List (String × DocData)) (u u' : String)
    (h : u' ≠ u) : alookup (eraseKey l u) u' = alookup l u' := by
  induction l with
  | nil => simp [alookup, eraseKey]
  | cons kv rest ih =>
    obtain ⟨k, v⟩ := kv
    by_cases hk : k = u
    · subst hk
      have hne : ¬(k = u') := fun he => h he.symm
      simp [eraseKey, alookup, hne, ih]
    · by_cases hk' : k = u'
      · simp [eraseKey, alookup, hk, hk', h]
      · simp [eraseKey, alookup, hk, hk', ih]

theorem alookup_eraseKey_self (l : List (String × DocData)) (u : String) :
    alookup (eraseKey l u) u = none := by
  induction l with
  | nil => simp [alookup, eraseKey]
  | cons kv rest ih =>
    obtain ⟨k, v⟩ := kv
    by_cases hk : k = u
    · simp [eraseKey, hk, ih]
    · simp [eraseKey, alookup, hk, ih]

theorem alookup_mem {β : Type} {l : List (String × β)} {u : String} {d : β}
    (h : alookup l u = some d) : (u, d) ∈ l := by
  induction l with
  | nil => simp [alookup] at h
  | cons kv rest ih =>
    obtain ⟨k, v⟩ := kv
    simp only [alookup] at h
    split at h
    · rename_i hk
      cases h
      subst hk
      exact List.mem_cons_self _ _
    · exact List.mem_cons_of_mem _ (ih h)

/-! ## Claim theorems -/

/-- C10 (counterexample): the resolvers do not leave their arguments
unchanged — the `position` object passed to `getHoverData` is mutated in
place (`position.line += 1; position.character += 1`), so its value after
the call differs from the value passed in. -/
theorem claim10_position_argument_mutated :
    (getHoverData ⟨[], []⟩ "u" ⟨0, 0⟩).2.2 ≠ ⟨0, 0⟩ := by decide

/-- C10 (amended): every query leaves the store unchanged and returns a
result determined by its inputs, but mutates the `position` argument by
adding one to both its line and its character. -/
theorem claim10_queries_read_only_but_mutate_position :
    ∀ (db : Database) (u : String) (p : Pos),
      (getHoverData db u p).2.1 = db ∧
      (getHoverData db u p).2.2 = ⟨p.line + 1, p.character + 1⟩ ∧
      (getDefinitionData db u p).2.1 = db ∧
      (getDefinitionData db u p).2.2 = ⟨p.line + 1, p.character + 1⟩ ∧
      (getReferencesData db u p).2.1 = db ∧
      (getReferencesData db u p).2.2 = ⟨p.line + 1, p.character + 1⟩ :=
  fun _ _ _ => ⟨rfl, rfl, rfl, rfl, rfl, rfl⟩

/-- C3 (code evaluated at the failing input): hover on a range with a
direct `textDocument/hover` edge faults instead of returning `none`, both
when the edge's target vertex is missing (`dbC3`) and when it exists but
is not a `hoverResult` (`dbC3b`) — the direct branch reads
`hoverResult.result.contents` without the existence/label check that the
`next`-edge branch performs. -/
theorem claim3_hover_direct_edge_fault :
    getHoverData dbC3 "u" ⟨0, 0⟩ = (.error (), dbC3, ⟨1, 1⟩) ∧
    getHoverData dbC3b "u" ⟨0, 0⟩ = (.error (), dbC3b, ⟨1, 1⟩) :=
  ⟨rfl, rfl⟩

/-- C2 (counterexample): a stream whose second line is not valid JSON
fails the load, but the document vertex from the first line is already
installed in the store when the exception propagates — the state is
neither the pre-load store (here: the empty initial store) nor a
fully-formed graph of the stream. -/
theorem claim2_partial_graph_counterexample :
    loadBackend initState [some docV, none] =
      .jsonError ⟨⟨[("u", ⟨[docV], []⟩)], [(1, "u")]⟩, some "u"⟩ ∧
    (⟨[("u", ⟨[docV], []⟩)], [(1, "u")]⟩ : Database) ≠ initState.database :=
  ⟨rfl, by decide⟩

/-- C2 (amended): a stream containing a non-blank line that is not valid
JSON never loads successfully — but the failure is not atomic; the records
ingested before the bad line remain installed (mutation is in place). -/
theorem claim2_malformed_line_fails_load (st : BackendState)
    (lines : List (Option Json)) (h : none ∈ lines) (st' : BackendState) :
    loadBackend st lines ≠ .ok st' := by
  have key : ∀ (l : List (Option Json)) (s : BackendState), none ∈ l →
      ∀ s', ingestAll s l ≠ .ok s' := by
    intro l
    induction l with
    | nil =>
      intro s hmem
      simp at hmem
    | cons a rest ih =>
      intro s hmem s'
      cases a with
      | none => simp [ingestAll]
      | some j =>
        have hr : none ∈ rest := by simpa using hmem
        simp only [ingestAll]
        cases hil : ingestLine s j with
        | error e =>
          cases e
          simp
        | ok s2 => exact ih s2 hr s'
  intro hok
  unfold loadBackend at hok
  cases hia : ingestAll st lines with
  | ok st2 => exact key lines st h st2 hia
  | jsonError s2 =>
    rw [hia] at hok
    simp at hok
  | fault =>
    rw [hia] at hok
    simp at hok

/-- C2 (witness for the amended theorem) at the concrete malformed
stream. -/
theorem claim2_malformed_line_fails_load_witness :
    (none ∈ [some docV, none]) ∧
      loadBackend initState [some docV, none] ≠ .ok initState :=
  ⟨by decide, claim2_malformed_line_fails_load initState [some docV, none]
    (by decide) initState⟩

/-- C5 (counterexample): a vertex record following a `contains` edge is
diverted to the unassigned shard (and lost when that shard is discarded)
even though the document cursor had been set by a `document` vertex and no
further `document` vertex intervened — the cursor is reset by every
`contains` edge, so the claim's "until the next document vertex" is false,
and `plainV` is a record scoped under document `"u"`'s cursor that does
not reach `"u"`'s shard. -/
theorem claim5_contains_resets_cursor_counterexample :
    loadBackend initState [some docV, some containsE, some plainV] =
      .ok ⟨⟨[("u", ⟨[docV], [containsE]⟩)], [(1, "u")]⟩, some "unsorted"⟩ ∧
    plainV ∉ ([docV] : List Json) :=
  ⟨rfl, by decide⟩

/-- C9 (counterexample): a record lacking the required `type` field does
not fail the load — the stream loads successfully and the record is
silently omitted from every shard. -/
theorem claim9_missing_type_silently_skipped :
    loadBackend initState [some docV, some noTypeV] =
      .ok ⟨⟨[("u", ⟨[docV], []⟩)], [(1, "u")]⟩, some "u"⟩ ∧
    noTypeV.type = none ∧ noTypeV ∉ ([docV] : List Json) :=
  ⟨rfl, rfl, by decide⟩

/-- C9 (amended): `load` performs no required-field validation at all — a
record whose `type` is neither `"vertex"` nor `"edge"` is ingested as a
no-op (no error is raised, nothing is stored), and no missing-field error
exists anywhere in `load`. -/
theorem claim9_no_field_validation (st : BackendState) (j : Json)
    (h1 : j.type ≠ some "vertex") (h2 : j.type ≠ some "edge") :
    ingestLine st j = .ok st := by
  have hc1 : ¬(j.label = some "document" ∧ j.type = some "vertex") :=
    fun hh => h1 hh.2
  have hc2 : ¬(j.label = some "contains" ∧ j.type = some "edge") :=
    fun hh => h2 hh.2
  unfold ingestLine docStep pushStep containsStep
  rw [if_neg hc1]
  cases st.currentDocumentUri <;> simp [h1, h2, hc2]

/-- C9 (witness): the amended no-validation theorem applied to the
type-less concrete record. -/
theorem claim9_no_field_validation_witness :
    noTypeV.type ≠ some "vertex" ∧ noTypeV.type ≠ some "edge" ∧
      ingestLine initState noTypeV = .ok initState :=
  ⟨by decide, by decide,
    claim9_no_field_validation initState noTypeV (by decide) (by decide)⟩

/-- C8 (counterexample): loading the same two-line stream twice does not
reproduce the first load's shards — the previous graph is not discarded,
and the second load appends the same records again, duplicating them. -/
theorem claim8_reload_duplicates_counterexample :
    loadBackend initState [some docV, some rangeV] =
      .ok ⟨⟨[("u", ⟨[docV, rangeV], []⟩)], [(1, "u")]⟩, some "u"⟩ ∧
    loadBackend ⟨⟨[("u", ⟨[docV, rangeV], []⟩)], [(1, "u")]⟩, some "u"⟩
        [some docV, some rangeV] =
      .ok ⟨⟨[("u", ⟨[docV, rangeV, docV, rangeV], []⟩)], [(1, "u")]⟩, some "u"⟩ ∧
    (⟨[("u", ⟨[docV, rangeV, docV, rangeV], []⟩)], [(1, "u")]⟩ : Database) ≠
      ⟨[("u", ⟨[docV, rangeV], []⟩)], [(1, "u")]⟩ :=
  ⟨rfl, rfl, by decide⟩

/-- C6 (counterexample): a single `definitions` item edge whose target set
contains two range ids (10 and 11), both of them targets of the defining
document's `contains` edge, yields exactly one location (for the first
vertex found), not one location per id of the intersection. -/
theorem claim6_no_fanout_counterexample :
    getDefinitionData dbC6 "u" ⟨0, 0⟩ =
      (.ok (some [⟨"u", ⟨1, 0⟩, ⟨1, 2⟩⟩]), dbC6, ⟨1, 1⟩) ∧
    defItemC6.inVs = some [10, 11] ∧ containsU6.inVs = some [2, 10, 11] ∧
    r10.id = some 10 ∧ r11.id = some 11 ∧ (10 : Int) ≠ 11 :=
  ⟨rfl, rfl, rfl, rfl, rfl, by decide⟩

/-- C7 (counterexample): the reference `item` edge `itemB` is found in
shard `"b"` during the all-shards scan and carries no `shard` field, yet
the emitted location uses the *request* document `"a"` (and `"a"`'s vertex
with the target id) as the owning document, not the shard `"b"` in which
the edge was found. -/
theorem claim7_fallback_counterexample :
    getReferencesData dbC7 "a" ⟨0, 0⟩ =
      (.ok (some [⟨"a", ⟨98, 0⟩, ⟨98, 4⟩⟩]), dbC7, ⟨1, 1⟩) ∧
    itemB.shard = none ∧
    alookup dbC7.documents "b" = some ⟨[docB, rB20], [containsB, itemB]⟩ ∧
    itemB ∈ (⟨[docB, rB20], [containsB, itemB]⟩ : DocData).edges ∧
    ("a" : String) ≠ "b" :=
  ⟨rfl, rfl, rfl, by decide, by decide⟩

theorem alookup_append_ne {β : Type} (l : List (String × β)) (k : String)
    (v : β) (u : String) (h : k ≠ u) : alookup (l ++ [(k, v)]) u = alookup l u := by
  induction l with
  | nil => simp [alookup, h]
  | cons kv rest ih =>
    obtain ⟨k', v'⟩ := kv
    by_cases hk : k' = u
    · simp [alookup, hk]
    · simp [alookup, hk, ih]

/-- C6 (amended): each `item` edge with the reference item's `outV` and
`property === "definitions"` contributes at most one location to the
definition resolver's accumulator — the resolver emits the first vertex of
the scanned shard whose id lies in the edge's target set, never one
location per target id. -/
theorem claim6_at_most_one_location_per_defedge :
    ∀ (db : Database) (docUri : String) (defData : DocData)
      (refOutV : Option Int) (acc : List Location) (items : List Json)
      (res : List Location),
      defInnerItems db docUri defData refOutV acc items = .ok res →
      res.length ≤ acc.length + countDefEdges refOutV items := by
  intro db docUri defData refOutV acc items
  induction items generalizing acc with
  | nil =>
    intro res h
    simp only [defInnerItems] at h
    cases h
    simp [countDefEdges]
  | cons e rest ih =>
    intro res h
    simp only [defInnerItems] at h
    by_cases hc : e.label = some "item" ∧ e.outV = refOutV ∧
        e.property = some "definitions"
    · rw [if_pos hc] at h
      have hcount : countDefEdges refOutV (e :: rest) =
          countDefEdges refOutV rest + 1 := by
        simp [countDefEdges, List.filter_cons, hc]
      split at h
      · cases h
      · split at h
        · have := ih acc res h
          omega
        · split at h
          · cases h
          · have := ih _ res h
            simp only [List.length_append, List.length_cons, List.length_nil] at this
            omega
    · rw [if_neg hc] at h
      have hcount : countDefEdges refOutV (e :: rest) =
          countDefEdges refOutV rest := by
        simp [countDefEdges, List.filter_cons, hc]
      have := ih acc res h
      omega

/-- C6 (witness): the amended bound applied to the concrete fan-out store,
where the single matching `definitions` edge yields exactly one location. -/
theorem claim6_at_most_one_location_witness :
    defInnerItems dbC6 "u" ⟨[docU6, rq6, r10, r11], [containsU6, refItemC6, defItemC6]⟩
        (some 100) [] [containsU6, refItemC6, defItemC6] =
      .ok [⟨"u", ⟨1, 0⟩, ⟨1, 2⟩⟩] ∧
    ([⟨"u", ⟨1, 0⟩, ⟨1, 2⟩⟩] : List Location).length ≤
      ([] : List Location).length +
        countDefEdges (some 100) [containsU6, refItemC6, defItemC6] :=
  ⟨rfl, claim6_at_most_one_location_per_defedge dbC6 "u"
    ⟨[docU6, rq6, r10, r11], [containsU6, refItemC6, defItemC6]⟩ (some 100) []
    [containsU6, refItemC6, defItemC6] [⟨"u", ⟨1, 0⟩, ⟨1, 2⟩⟩] rfl⟩

/-- C5 (amended): the actual cursor discipline of ingestion — (i) every
`contains` edge resets the cursor to the unassigned shard; (ii) any other
record arriving while the cursor points at a shard that exists is appended
to that shard's vertex or edge array according to its `type`; (iii) while
no cursor is set, non-document records are dropped (no shard other than a
possibly newly created empty unassigned one changes). -/
theorem claim5_ingest_cursor_discipline :
    (∀ (st : BackendState) (j : Json) (st' : BackendState),
       j.label = some "contains" → j.type = some "edge" →
       ingestLine st j = .ok st' → st'.currentDocumentUri = some "unsorted") ∧
    (∀ (st : BackendState) (j : Json) (u : String) (d : DocData),
       ¬(j.label = some "document" ∧ j.type = some "vertex") →
       st.currentDocumentUri = some u →
       alookup st.database.documents u = some d →
       (j.type = some "vertex" →
          ∃ st', ingestLine st j = .ok st' ∧
            alookup st'.database.documents u = some ⟨d.vertices ++ [j], d.edges⟩) ∧
       (j.type = some "edge" →
          ∃ st', ingestLine st j = .ok st' ∧
            alookup st'.database.documents u = some ⟨d.vertices, d.edges ++ [j]⟩)) ∧
    (∀ (st : BackendState) (j : Json),
       st.currentDocumentUri = none →
       ¬(j.label = some "document" ∧ j.type = some "vertex") →
       ∃ st', ingestLine st j = .ok st' ∧
         ∀ u, u ≠ "unsorted" →
           alookup st'.database.documents u = alookup st.database.documents u) := by
  refine ⟨?_, ?_, ?_⟩
  · intro st j st' hl ht h
    unfold ingestLine at h
    cases hp : pushStep (docStep st j) j with
    | none =>
      rw [hp] at h
      cases h
    | some st2 =>
      rw [hp] at h
      injection h with h2
      subst h2
      unfold containsStep
      rw [if_pos ⟨hl, ht⟩]
      dsimp only
      split <;> rfl
  · intro st j u d hnd hcur hlook
    have hds : docStep st j = st := by
      unfold docStep
      rw [if_neg hnd]
    constructor
    · intro htv
      have hnc : ¬(j.label = some "contains" ∧ j.type = some "edge") := by
        rintro ⟨-, hte⟩
        rw [htv] at hte
        exact absurd hte (by decide)
      refine ⟨containsStep { st with database := { st.database with
          documents := updateDoc st.database.documents u
            (fun dd => { dd with vertices := dd.vertices ++ [j] }) } } j, ?_, ?_⟩
      · unfold ingestLine
        rw [hds]
        unfold pushStep
        rw [hcur]
        dsimp only
        rw [if_pos htv]
        unfold pushVertex
        rw [hlook]
        rfl
      · unfold containsStep
        rw [if_neg hnc]
        simp only
        rw [alookup_updateDoc_self, hlook]
        rfl
    · intro hte
      have hnv : ¬(j.type = some "vertex") := by
        rw [hte]
        decide
      refine ⟨containsStep { st with database := { st.database with
          documents := updateDoc st.database.documents u
            (fun dd => { dd with edges := dd.edges ++ [j] }) } } j, ?_, ?_⟩
      · unfold ingestLine
        rw [hds]
        unfold pushStep
        rw [hcur]
        dsimp only
        rw [if_neg hnv, if_pos hte]
        unfold pushEdge
        rw [hlook]
        rfl
      · have hupd : alookup
            (updateDoc st.database.documents u
              (fun d => { d with edges := d.edges ++ [j] })) u =
            some ⟨d.vertices, d.edges ++ [j]⟩ := by
          rw [alookup_updateDoc_self, hlook]
          rfl
        unfold containsStep
        by_cases hc : j.label = some "contains" ∧ j.type = some "edge"
        · rw [if_pos hc]
          simp only
          split
          · rename_i hnone
            by_cases hu : u = "unsorted"
            · subst hu
              rw [hupd] at hnone
              simp at hnone
            · rw [alookup_append_ne _ _ _ _ (fun he => hu he.symm)]
              exact hupd
          · exact hupd
        · rw [if_neg hc]
          exact hupd
  · intro st j hcur hnd
    have hds : docStep st j = st := by
      unfold docStep
      rw [if_neg hnd]
    refine ⟨containsStep st j, ?_, ?_⟩
    · unfold ingestLine
      rw [hds]
      unfold pushStep
      rw [hcur]
    · intro u hu
      unfold containsStep
      by_cases hc : j.label = some "contains" ∧ j.type = some "edge"
      · rw [if_pos hc]
        simp only
        split
        · rw [alookup_append_ne _ _ _ _ (fun he => hu he.symm)]
        · rfl
      · rw [if_neg hc]

/-- C5 (witness): part (ii) of the cursor discipline applied to a concrete
state with the cursor on document `"u"` and an ordinary vertex record. -/
theorem claim5_ingest_cursor_discipline_witness :
    ∃ st', ingestLine ⟨⟨[("u", ⟨[docV], []⟩)], [(1, "u")]⟩, some "u"⟩ rangeV =
        .ok st' ∧
      alookup st'.database.documents "u" = some ⟨[docV] ++ [rangeV], []⟩ :=
  (claim5_ingest_cursor_discipline.2.1
    ⟨⟨[("u", ⟨[docV], []⟩)], [(1, "u")]⟩, some "u"⟩ rangeV "u" ⟨[docV], []⟩
    (by decide) rfl rfl).1 rfl

theorem alookup_addContrib (vmap : List (Int × String)) (ud : DocData)
    (es : List Json) (docs : List (String × DocData)) (u : String) :
    alookup (addContrib vmap ud es docs) u =
      (alookup docs u).map (contribFun vmap ud es u) := by
  induction docs with
  | nil => simp [alookup, addContrib]
  | cons kv rest ih =>
    obtain ⟨k, v⟩ := kv
    by_cases hk : k = u
    · subst hk
      simp [addContrib, alookup]
    · simp [addContrib, alookup, hk, ih]

theorem updateDoc_updateDoc (l : List (String × DocData)) (u : String)
    (f g : DocData → DocData) :
    updateDoc (updateDoc l u f) u g = updateDoc l u (fun d => g (f d)) := by
  induction l with
  | nil => simp [updateDoc]
  | cons kv rest ih =>
    obtain ⟨k, v⟩ := kv
    by_cases hk : k = u
    · simp [updateDoc, hk, ih]
    · simp [updateDoc, hk, ih]

theorem updateDoc_congr (l : List (String × DocData)) (u : String)
    (f g : DocData → DocData) (h : ∀ d, f d = g d) :
    updateDoc l u f = updateDoc l u g := by
  induction l with
  | nil => simp [updateDoc]
  | cons kv rest ih =>
    obtain ⟨k, v⟩ := kv
    by_cases hk : k = u
    · simp [updateDoc, hk, ih, h]
    · simp [updateDoc, hk, ih]

theorem addContrib_nil (vmap : List (Int × String)) (ud : DocData)
    (docs : List (String × DocData)) : addContrib vmap ud [] docs = docs := by
  induction docs with
  | nil => simp [addContrib]
  | cons kv rest ih =>
    obtain ⟨k, v⟩ := kv
    by_cases hk : k = "unsorted"
    · simp [addContrib, contribFun, hk, ih]
    · simp [addContrib, contribFun, migV, migE, hk, ih]

theorem addContrib_noop (vmap : List (Int × String)) (ud : DocData) (e : Json)
    (docs : List (String × DocData)) (h : resolveTarget vmap e = none) :
    addContrib vmap ud [e] docs = docs := by
  induction docs with
  | nil => simp [addContrib]
  | cons kv rest ih =>
    obtain ⟨k, v⟩ := kv
    by_cases hk : k = "unsorted"
    · simp [addContrib, contribFun, hk, ih]
    · simp [addContrib, contribFun, migV, migE, hk, h, ih]

theorem addContrib_cons (vmap : List (Int × String)) (ud : DocData) (e : Json)
    (es : List Json) (docs : List (String × DocData)) :
    addContrib vmap ud (e :: es) docs =
      addContrib vmap ud es (addContrib vmap ud [e] docs) := by
  induction docs with
  | nil => simp [addContrib]
  | cons kv rest ih =>
    obtain ⟨k, v⟩ := kv
    by_cases hk : k = "unsorted"
    · simp [addContrib, contribFun, hk, ih]
    · simp only [addContrib, contribFun, migV, migE, if_neg hk, List.cons.injEq,
        Prod.mk.injEq, true_and]
      refine ⟨?_, ih⟩
      by_cases ht : resolveTarget vmap e = some k
      · simp [ht, List.append_assoc]
      · simp [ht]

theorem addContrib_target (vmap : List (Int × String)) (ud : DocData) (e : Json)
    (docs : List (String × DocData)) (t : String)
    (h : resolveTarget vmap e = some t) (ht : t ≠ "unsorted") :
    addContrib vmap ud [e] docs =
      updateDoc docs t (fun d =>
        ⟨d.vertices ++ (findById ud.vertices (e.id.map (· - 2))).toList,
         d.edges ++ e :: (findById ud.edges (e.id.map (· - 1))).toList⟩) := by
  induction docs with
  | nil => simp [addContrib, updateDoc]
  | cons kv rest ih =>
    obtain ⟨k, v⟩ := kv
    by_cases hk : k = t
    · subst hk
      simp [addContrib, contribFun, migV, migE, updateDoc, ht, h, ih]
    · by_cases hu : k = "unsorted"
      · have hnt : ¬(("unsorted" : String) = t) := hu ▸ hk
        simp [addContrib, contribFun, migV, migE, updateDoc, hu, hk, hnt, ih]
      · have hne : ¬(resolveTarget vmap e = some k) := by
          rw [h]
          intro hc
          exact hk (Option.some.inj hc).symm
        simp [addContrib, contribFun, migV, migE, updateDoc, hu, hk, hne, ih]

/-- One repair-loop step, under the invariants that the unassigned shard is
`ud` and that every uri recorded in the id→uri map is a live shard other
than the unassigned one: the step succeeds and its whole effect on the
store is `addContrib` of the single edge. -/
theorem repairEdge_spec (db : Database) (ud : DocData) (e : Json)
    (hud : alookup db.documents "unsorted" = some ud)
    (hok : ∀ s u, ilookup db.vertexIdToDocument s = some u →
      u ≠ "unsorted" ∧ (alookup db.documents u).isSome = true) :
    repairEdge db e =
      .ok ⟨addContrib db.vertexIdToDocument ud [e] db.documents,
           db.vertexIdToDocument⟩ := by
  unfold repairEdge
  by_cases hc : e.label = some "item" ∧ shardTruthy e.shard = true
  · rw [if_pos hc]
    cases hres : e.shard.bind (fun s => ilookup db.vertexIdToDocument s) with
    | none =>
      have hrt : resolveTarget db.vertexIdToDocument e = none := by
        unfold resolveTarget
        rw [if_pos hc]
        exact hres
      rw [addContrib_noop _ _ _ _ hrt]
    | some t =>
      obtain ⟨s, -, hst⟩ : ∃ s, e.shard = some s ∧
          ilookup db.vertexIdToDocument s = some t := by
        cases hsh : e.shard with
        | none =>
          rw [hsh] at hres
          cases hres
        | some s =>
          rw [hsh] at hres
          exact ⟨s, rfl, hres⟩
      obtain ⟨htne, htsome⟩ := hok s t hst
      obtain ⟨d0, hd0⟩ := Option.isSome_iff_exists.mp htsome
      have hrt : resolveTarget db.vertexIdToDocument e = some t := by
        unfold resolveTarget
        rw [if_pos hc]
        exact hres
      rw [addContrib_target _ _ _ _ t hrt htne]
      dsimp only
      have hpe : pushEdge db t e = some ⟨updateDoc db.documents t
          (fun d => { d with edges := d.edges ++ [e] }), db.vertexIdToDocument⟩ := by
        unfold pushEdge
        rw [hd0]
      rw [hpe]
      dsimp only
      rw [show alookup (updateDoc db.documents t
            (fun d => { d with edges := d.edges ++ [e] })) "unsorted" = some ud from by
          rw [alookup_updateDoc_ne _ _ _ _ (Ne.symm htne)]
          exact hud]
      dsimp only [Option.bind]
      cases he1 : findById ud.edges (e.id.map (· - 1)) with
      | some e1 =>
        dsimp only
        have hpe1 : pushEdge ⟨updateDoc db.documents t
            (fun d => { d with edges := d.edges ++ [e] }), db.vertexIdToDocument⟩ t e1 =
            some ⟨updateDoc (updateDoc db.documents t
              (fun d => { d with edges := d.edges ++ [e] })) t
              (fun d => { d with edges := d.edges ++ [e1] }), db.vertexIdToDocument⟩ := by
          unfold pushEdge
          dsimp only
          rw [alookup_updateDoc_self, hd0]
          rfl
        rw [hpe1]
        dsimp only
        rw [show alookup (updateDoc (updateDoc db.documents t
              (fun d => { d with edges := d.edges ++ [e] })) t
              (fun d => { d with edges := d.edges ++ [e1] })) "unsorted" = some ud from by
            rw [alookup_updateDoc_ne _ _ _ _ (Ne.symm htne),
              alookup_updateDoc_ne _ _ _ _ (Ne.symm htne)]
            exact hud]
        dsimp only [Option.bind]
        cases hv2 : findById ud.vertices (e.id.map (· - 2)) with
        | some v2 =>
          dsimp only
          have hpv : pushVertex ⟨updateDoc (updateDoc db.documents t
              (fun d => { d with edges := d.edges ++ [e] })) t
              (fun d => { d with edges := d.edges ++ [e1] }), db.vertexIdToDocument⟩ t v2 =
              some ⟨updateDoc (updateDoc (updateDoc db.documents t
                (fun d => { d with edges := d.edges ++ [e] })) t
                (fun d => { d with edges := d.edges ++ [e1] })) t
                (fun d => { d with vertices := d.vertices ++ [v2] }),
                db.vertexIdToDocument⟩ := by
            unfold pushVertex
            dsimp only
            rw [alookup_updateDoc_self, alookup_updateDoc_self, hd0]
            rfl
          rw [hpv]
          rw [updateDoc_updateDoc, updateDoc_updateDoc]
          exact congrArg (fun x => Except.ok (Database.mk x db.vertexIdToDocument))
            (updateDoc_congr _ _ _ _ (fun d => by
              simp [List.append_assoc]))
        | none =>
          rw [updateDoc_updateDoc]
          exact congrArg (fun x => Except.ok (Database.mk x db.vertexIdToDocument))
            (updateDoc_congr _ _ _ _ (fun d => by
              simp [List.append_assoc]))
      | none =>
        dsimp only
        cases hv2 : findById ud.vertices (e.id.map (· - 2)) with
        | some v2 =>
          dsimp only
          have hpv : pushVertex ⟨updateDoc db.documents t
              (fun d => { d with edges := d.edges ++ [e] }), db.vertexIdToDocument⟩ t v2 =
              some ⟨updateDoc (updateDoc db.documents t
                (fun d => { d with edges := d.edges ++ [e] })) t
                (fun d => { d with vertices := d.vertices ++ [v2] }),
                db.vertexIdToDocument⟩ := by
            unfold pushVertex
            dsimp only
            rw [alookup_updateDoc_self, hd0]
            rfl
          rw [hpv]
          rw [updateDoc_updateDoc]
          exact congrArg (fun x => Except.ok (Database.mk x db.vertexIdToDocument))
            (updateDoc_congr _ _ _ _ (fun d => by
              simp [List.append_assoc]))
        | none =>
          exact congrArg (fun x => Except.ok (Database.mk x db.vertexIdToDocument))
            (updateDoc_congr _ _ _ _ (fun d => by
              simp [List.append_assoc]))
  · rw [if_neg hc]
    have hrt : resolveTarget db.vertexIdToDocument e = none := by
      unfold resolveTarget
      rw [if_neg hc]
    rw [addContrib_noop _ _ _ _ hrt]

/-- The whole repair loop, under the same invariants: its effect is
`addContrib` of all the unassigned `item` edges. -/
theorem repairLoop_spec (ud : DocData) (vmap : List (Int × String)) :
    ∀ (es : List Json) (db : Database),
      db.vertexIdToDocument = vmap →
      alookup db.documents "unsorted" = some ud →
      (∀ s u, ilookup vmap s = some u →
        u ≠ "unsorted" ∧ (alookup db.documents u).isSome = true) →
      repairLoop db es = .ok ⟨addContrib vmap ud es db.documents, vmap⟩ := by
  intro es
  induction es with
  | nil =>
    intro db hvm hud hok
    rw [addContrib_nil]
    subst hvm
    rfl
  | cons e rest ih =>
    intro db hvm hud hok
    have hok' : ∀ s u, ilookup db.vertexIdToDocument s = some u →
        u ≠ "unsorted" ∧ (alookup db.documents u).isSome = true := by
      rw [hvm]
      exact hok
    have hstep := repairEdge_spec db ud e hud hok'
    rw [hvm] at hstep
    simp only [repairLoop]
    rw [hstep]
    dsimp only
    have hud' : alookup (addContrib vmap ud [e] db.documents) "unsorted" =
        some ud := by
      rw [alookup_addContrib, hud]
      simp [contribFun]
    have hok'' : ∀ s u, ilookup vmap s = some u →
        u ≠ "unsorted" ∧
          (alookup (addContrib vmap ud [e] db.documents) u).isSome = true := by
      intro s u hsu
      refine ⟨(hok s u hsu).1, ?_⟩
      rw [alookup_addContrib]
      have hs := (hok s u hsu).2
      cases hopt : alookup db.documents u with
      | none =>
        rw [hopt] at hs
        cases hs
      | some dd => simp
    rw [addContrib_cons vmap ud e rest db.documents]
    exact ih ⟨addContrib vmap ud [e] db.documents, vmap⟩ rfl hud' hok''

/-- C4 (confirmed): under the ingestion invariants — every uri recorded in
the global id→uri map names a live shard and is not the reserved
unassigned name — the repair pass computes exactly the specification's
description `repairSpec`: each resolving `item` edge of the unassigned
shard is copied to its target shard together with the unassigned edge at
`id-1` and the unassigned vertex at `id-2` when present, nothing else is
migrated, and the unassigned shard is then discarded. -/
theorem claim4_repair_pass_spec (db : Database)
    (hok : ∀ s u, ilookup db.vertexIdToDocument s = some u →
      u ≠ "unsorted" ∧ (alookup db.documents u).isSome = true) :
    runRepair db = .ok (repairSpec db) := by
  unfold runRepair repairSpec
  cases hud : alookup db.documents "unsorted" with
  | none => rfl
  | some ud =>
    dsimp only
    rw [repairLoop_spec ud db.vertexIdToDocument ud.edges db rfl hud hok]

/-- C4 (witness): the repair characterisation applied to the concrete
store `dbRepair` with one resolvable unassigned `item` edge. -/
theorem claim4_repair_pass_witness :
    (∀ s u, ilookup dbRepair.vertexIdToDocument s = some u →
      u ≠ "unsorted" ∧ (alookup dbRepair.documents u).isSome = true) ∧
    runRepair dbRepair = .ok (repairSpec dbRepair) := by
  have hok : ∀ s u, ilookup dbRepair.vertexIdToDocument s = some u →
      u ≠ "unsorted" ∧ (alookup dbRepair.documents u).isSome = true := by
    intro s u h
    simp only [dbRepair, ilookup] at h
    split at h
    · cases h
      exact ⟨by decide, by decide⟩
    · cases h
  exact ⟨hok, claim4_repair_pass_spec dbRepair hok⟩




theorem DocExtends_refl (d : DocData) : DocExtends d d :=
  ⟨⟨[], by simp⟩, ⟨[], by simp⟩⟩

theorem DocExtends_trans {a b c : DocData} (h1 : DocExtends a b)
    (h2 : DocExtends b c) : DocExtends a c := by
  obtain ⟨⟨t1, hv1⟩, ⟨t2, he1⟩⟩ := h1
  obtain ⟨⟨t3, hv2⟩, ⟨t4, he2⟩⟩ := h2
  exact ⟨⟨t1 ++ t3, by rw [hv2, hv1, List.append_assoc]⟩,
         ⟨t2 ++ t4, by rw [he2, he1, List.append_assoc]⟩⟩

theorem Extends_refl (db : Database) : Extends db db :=
  ⟨fun _ d _ h => ⟨d, h, DocExtends_refl d⟩, fun _ _ h => h⟩

theorem Extends_trans {a b c : Database} (h1 : Extends a b) (h2 : Extends b c) :
    Extends a c := by
  refine ⟨fun u d hu hl => ?_, fun i v hv => h2.2 i v (h1.2 i v hv)⟩
  obtain ⟨d1, hl1, hde1⟩ := h1.1 u d hu hl
  obtain ⟨d2, hl2, hde2⟩ := h2.1 u d1 hu hl1
  exact ⟨d2, hl2, DocExtends_trans hde1 hde2⟩

theorem Extends_pushVertex {db : Database} {u : String} {j : Json}
    {db' : Database} (h : pushVertex db u j = some db') : Extends db db' := by
  unfold pushVertex at h
  cases hl : alookup db.documents u with
  | none =>
    rw [hl] at h
    cases h
  | some d0 =>
    rw [hl] at h
    cases h
    refine ⟨fun u' d hu' hlk => ?_, fun i v hv => hv⟩
    by_cases he : u' = u
    · subst he
      rw [alookup_updateDoc_self, hlk]
      exact ⟨_, rfl, ⟨[j], rfl⟩, ⟨[], by simp⟩⟩
    · rw [alookup_updateDoc_ne _ _ _ _ he]
      exact ⟨d, hlk, DocExtends_refl d⟩

theorem Extends_pushEdge {db : Database} {u : String} {j : Json}
    {db' : Database} (h : pushEdge db u j = some db') : Extends db db' := by
  unfold pushEdge at h
  cases hl : alookup db.documents u with
  | none =>
    rw [hl] at h
    cases h
  | some d0 =>
    rw [hl] at h
    cases h
    refine ⟨fun u' d hu' hlk => ?_, fun i v hv => hv⟩
    by_cases he : u' = u
    · subst he
      rw [alookup_updateDoc_self, hlk]
      exact ⟨_, rfl, ⟨[], by simp⟩, ⟨[j], rfl⟩⟩
    · rw [alookup_updateDoc_ne _ _ _ _ he]
      exact ⟨d, hlk, DocExtends_refl d⟩

theorem Extends_docStep (st : BackendState) (j : Json) :
    Extends st.database (docStep st j).database := by
  unfold docStep
  by_cases hc : j.label = some "document" ∧ j.type = some "vertex"
  · rw [if_pos hc]
    cases j.uri with
    | none => exact Extends_refl _
    | some u =>
      dsimp only
      by_cases hn : (alookup st.database.documents u).isNone = true
      · rw [if_pos hn]
        refine ⟨fun u' d hu' hlk => ⟨d, alookup_append_of_some hlk,
          DocExtends_refl d⟩, fun i v hv => ?_⟩
        cases j.id with
        | none => exact hv
        | some idv => exact ilookup_append_of_some hv
      · rw [if_neg hn]
        exact Extends_refl _
  · rw [if_neg hc]
    exact Extends_refl _

theorem Extends_pushStep {st : BackendState} {j : Json} {st' : BackendState}
    (h : pushStep st j = some st') : Extends st.database st'.database := by
  unfold pushStep at h
  cases hcur : st.currentDocumentUri with
  | none =>
    rw [hcur] at h
    cases h
    exact Extends_refl _
  | some u =>
    rw [hcur] at h
    dsimp only at h
    by_cases h1 : j.type = some "vertex"
    · rw [if_pos h1] at h
      cases hp : pushVertex st.database u j with
      | none =>
        rw [hp] at h
        cases h
      | some db2 =>
        rw [hp] at h
        cases h
        exact Extends_pushVertex hp
    · rw [if_neg h1] at h
      by_cases h2 : j.type = some "edge"
      · rw [if_pos h2] at h
        cases hp : pushEdge st.database u j with
        | none =>
          rw [hp] at h
          cases h
        | some db2 =>
          rw [hp] at h
          cases h
          exact Extends_pushEdge hp
      · rw [if_neg h2] at h
        cases h
        exact Extends_refl _

theorem Extends_containsStep (st : BackendState) (j : Json) :
    Extends st.database (containsStep st j).database := by
  unfold containsStep
  by_cases hc : j.label = some "contains" ∧ j.type = some "edge"
  · rw [if_pos hc]
    dsimp only
    by_cases hn : (alookup st.database.documents "unsorted").isNone = true
    · rw [if_pos hn]
      exact ⟨fun u' d hu' hlk => ⟨d, alookup_append_of_some hlk,
        DocExtends_refl d⟩, fun i v hv => hv⟩
    · rw [if_neg hn]
      exact Extends_refl _
  · rw [if_neg hc]
    exact Extends_refl _

theorem Extends_ingestLine {st : BackendState} {j : Json} {st' : BackendState}
    (h : ingestLine st j = .ok st') : Extends st.database st'.database := by
  unfold ingestLine at h
  cases hp : pushStep (docStep st j) j with
  | none =>
    rw [hp] at h
    cases h
  | some st2 =>
    rw [hp] at h
    cases h
    exact Extends_trans (Extends_docStep st j)
      (Extends_trans (Extends_pushStep hp) (Extends_containsStep st2 j))

theorem Extends_ingestAll {st : BackendState} {lines : List (Option Json)}
    {st' : BackendState} (h : ingestAll st lines = .ok st') :
    Extends st.database st'.database := by
  induction lines generalizing st with
  | nil =>
    simp only [ingestAll] at h
    cases h
    exact Extends_refl _
  | cons a rest ih =>
    cases a with
    | none =>
      simp only [ingestAll] at h
      cases h
    | some j =>
      simp only [ingestAll] at h
      cases hil : ingestLine st j with
      | error e =>
        cases e
        rw [hil] at h
        cases h
      | ok st2 =>
        rw [hil] at h
        exact Extends_trans (Extends_ingestLine hil) (ih h)

theorem Extends_eraseUnsorted (db : Database) :
    Extends db ⟨eraseKey db.documents "unsorted", db.vertexIdToDocument⟩ := by
  refine ⟨fun u d hu hlk => ⟨d, ?_, DocExtends_refl d⟩, fun i v hv => hv⟩
  rw [show (⟨eraseKey db.documents "unsorted", db.vertexIdToDocument⟩ :
      Database).documents = eraseKey db.documents "unsorted" from rfl]
  rw [alookup_eraseKey_ne _ _ _ hu]
  exact hlk

theorem Extends_repairEdge {db : Database} {e : Json} {db' : Database}
    (h : repairEdge db e = .ok db') : Extends db db' := by
  unfold repairEdge at h
  by_cases hc : e.label = some "item" ∧ shardTruthy e.shard = true
  · rw [if_pos hc] at h
    cases hres : e.shard.bind (fun s => ilookup db.vertexIdToDocument s) with
    | none =>
      rw [hres] at h
      cases h
      exact Extends_refl _
    | some t =>
      rw [hres] at h
      dsimp only at h
      cases hp1 : pushEdge db t e with
      | none =>
        rw [hp1] at h
        cases h
      | some db1 =>
        rw [hp1] at h
        dsimp only at h
        have E1 := Extends_pushEdge hp1
        cases hf1 : (alookup db1.documents "unsorted").bind
            (fun ud => findById ud.edges (e.id.map (· - 1))) with
        | none =>
          rw [hf1] at h
          dsimp only at h
          cases hf2 : (alookup db1.documents "unsorted").bind
              (fun ud => findById ud.vertices (e.id.map (· - 2))) with
          | none =>
            rw [hf2] at h
            cases h
            exact E1
          | some v2 =>
            rw [hf2] at h
            dsimp only at h
            cases hp2 : pushVertex db1 t v2 with
            | none =>
              rw [hp2] at h
              cases h
            | some db2 =>
              rw [hp2] at h
              cases h
              exact Extends_trans E1 (Extends_pushVertex hp2)
        | some e1 =>
          rw [hf1] at h
          dsimp only at h
          cases hp2 : pushEdge db1 t e1 with
          | none =>
            rw [hp2] at h
            cases h
          | some db2 =>
            rw [hp2] at h
            dsimp only at h
            have E2 := Extends_pushEdge hp2
            cases hf2 : (alookup db2.documents "unsorted").bind
                (fun ud => findById ud.vertices (e.id.map (· - 2))) with
            | none =>
              rw [hf2] at h
              cases h
              exact Extends_trans E1 E2
            | some v2 =>
              rw [hf2] at h
              dsimp only at h
              cases hp3 : pushVertex db2 t v2 with
              | none =>
                rw [hp3] at h
                cases h
              | some db3 =>
                rw [hp3] at h
                cases h
                exact Extends_trans E1 (Extends_trans E2 (Extends_pushVertex hp3))
  · rw [if_neg hc] at h
    cases h
    exact Extends_refl _

theorem Extends_repairLoop {db : Database} {es : List Json} {db' : Database}
    (h : repairLoop db es = .ok db') : Extends db db' := by
  induction es generalizing db with
  | nil =>
    simp only [repairLoop] at h
    cases h
    exact Extends_refl _
  | cons e rest ih =>
    simp only [repairLoop] at h
    cases hre : repairEdge db e with
    | error u =>
      cases u
      rw [hre] at h
      cases h
    | ok db2 =>
      rw [hre] at h
      exact Extends_trans (Extends_repairEdge hre) (ih h)

theorem Extends_runRepair {db : Database} {db' : Database}
    (h : runRepair db = .ok db') : Extends db db' := by
  unfold runRepair at h
  cases hud : alookup db.documents "unsorted" with
  | none =>
    rw [hud] at h
    cases h
    exact Extends_refl _
  | some ud =>
    rw [hud] at h
    dsimp only at h
    cases hrl : repairLoop db ud.edges with
    | error u =>
      cases u
      rw [hrl] at h
      cases h
    | ok db2 =>
      rw [hrl] at h
      cases h
      exact Extends_trans (Extends_repairLoop hrl) (Extends_eraseUnsorted db2)

/-- C8 (amended): a fresh `load` call never discards the previously built
graph — a successful load only extends it: every document shard present
before the call (other than the reserved unassigned one) keeps all its
records, with new records only appended, and every id→uri entry survives.
Re-loading the same bytes therefore duplicates records instead of
reproducing identical shards. -/
theorem claim8_load_only_appends (st : BackendState)
    (lines : List (Option Json)) (st' : BackendState)
    (h : loadBackend st lines = .ok st') : Extends st.database st'.database := by
  unfold loadBackend at h
  cases hia : ingestAll st lines with
  | ok st2 =>
    rw [hia] at h
    dsimp only at h
    cases hrr : runRepair st2.database with
    | error u =>
      cases u
      rw [hrr] at h
      cases h
    | ok db2 =>
      rw [hrr] at h
      cases h
      exact Extends_trans (Extends_ingestAll hia) (Extends_runRepair hrr)
  | jsonError s2 =>
    rw [hia] at h
    cases h
  | fault =>
    rw [hia] at h
    cases h

/-- C8 (witness): the append-only theorem applied to the concrete repeated
load, showing the duplicated second-load store extends the first-load
store. -/
theorem claim8_load_only_appends_witness :
    Extends (⟨[("u", ⟨[docV, rangeV], []⟩)], [(1, "u")]⟩ : Database)
      (⟨[("u", ⟨[docV, rangeV, docV, rangeV], []⟩)], [(1, "u")]⟩ : Database) :=
  claim8_load_only_appends
    ⟨⟨[("u", ⟨[docV, rangeV], []⟩)], [(1, "u")]⟩, some "u"⟩
    [some docV, some rangeV]
    ⟨⟨[("u", ⟨[docV, rangeV, docV, rangeV], []⟩)], [(1, "u")]⟩, some "u"⟩ rfl

theorem convertRange_inv {v : Json} {a b : Pos} (h : convertRange v = .ok (a, b)) :
    ∃ s e, v.start = some s ∧ v.end_ = some e ∧
      a = ⟨s.line - 1, s.character - 1⟩ ∧ b = ⟨e.line - 1, e.character - 1⟩ := by
  unfold convertRange at h
  cases hs : v.start with
  | none =>
    rw [hs] at h
    cases h
  | some s =>
    cases he : v.end_ with
    | none =>
      rw [hs, he] at h
      cases h
    | some e =>
      rw [hs, he] at h
      dsimp only at h
      cases h
      exact ⟨s, e, rfl, rfl, rfl, rfl⟩

theorem refRangeCollect_from (d : DocData) (u : String) :
    ∀ (ids : List Int) (acc res : List Location),
      refRangeCollect d u acc ids = .ok res →
      ∀ loc ∈ res, loc ∈ acc ∨
        ∃ v s e, v ∈ d.vertices ∧ v.label = some "range" ∧ v.start = some s ∧
          v.end_ = some e ∧
          loc = ⟨u, ⟨s.line - 1, s.character - 1⟩,
                 ⟨e.line - 1, e.character - 1⟩⟩ := by
  intro ids
  induction ids with
  | nil =>
    intro acc res h loc hloc
    simp only [refRangeCollect] at h
    cases h
    exact Or.inl hloc
  | cons rid rest ih =>
    intro acc res h loc hloc
    simp only [refRangeCollect] at h
    cases hf : d.vertices.find?
        (fun v => decide (v.id = some rid ∧ v.label = some "range")) with
    | none =>
      rw [hf] at h
      exact ih acc res h loc hloc
    | some rr =>
      rw [hf] at h
      dsimp only at h
      cases hcv : convertRange rr with
      | error e0 =>
        cases e0
        rw [hcv] at h
        cases h
      | ok pq =>
        obtain ⟨p1, q1⟩ := pq
        rw [hcv] at h
        dsimp only at h
        cases ih _ res h loc hloc with
        | inr hex => exact Or.inr hex
        | inl hmem =>
          rcases List.mem_append.mp hmem with hacc | hnew
          · exact Or.inl hacc
          · have hpred := List.find?_some hf
            have hmemv := List.mem_of_find?_eq_some hf
            simp only [decide_eq_true_eq] at hpred
            obtain ⟨-, hlab⟩ := hpred
            obtain ⟨s, e, hs, he, hp, hq⟩ := convertRange_inv hcv
            have hle : loc = ⟨u, p1, q1⟩ := by simpa using hnew
            exact Or.inr ⟨rr, s, e, hmemv, hlab, hs, he, by rw [hle, hp, hq]⟩

theorem refLocLoop_from (db : Database) (reqUri : String) :
    ∀ (items : List Json) (acc res : List Location),
      refLocLoop db reqUri acc items = .ok res →
      ∀ loc ∈ res, loc ∈ acc ∨
        ∃ u' d', alookup db.documents u' = some d' ∧
          ∃ v s e, v ∈ d'.vertices ∧ v.label = some "range" ∧ v.start = some s ∧
            v.end_ = some e ∧
            loc = ⟨u', ⟨s.line - 1, s.character - 1⟩,
                   ⟨e.line - 1, e.character - 1⟩⟩ := by
  intro items
  induction items with
  | nil =>
    intro acc res h loc hloc
    simp only [refLocLoop] at h
    cases h
    exact Or.inl hloc
  | cons ie rest ih =>
    intro acc res h loc hloc
    simp only [refLocLoop] at h
    cases hlk : alookup db.documents
        ((ie.shard.bind (fun s => ilookup db.vertexIdToDocument s)).getD reqUri) with
    | none =>
      rw [hlk] at h
      exact ih acc res h loc hloc
    | some td =>
      rw [hlk] at h
      dsimp only at h
      cases hivs : ie.inVs with
      | none =>
        rw [hivs] at h
        cases h
      | some ids =>
        rw [hivs] at h
        dsimp only at h
        cases hrc : refRangeCollect td
            ((ie.shard.bind (fun s => ilookup db.vertexIdToDocument s)).getD reqUri)
            acc ids with
        | error e0 =>
          cases e0
          rw [hrc] at h
          cases h
        | ok acc2 =>
          rw [hrc] at h
          cases ih acc2 res h loc hloc with
          | inr hex => exact Or.inr hex
          | inl hmem =>
            cases refRangeCollect_from td _ ids acc acc2 hrc loc hmem with
            | inl hacc => exact Or.inl hacc
            | inr hex =>
              obtain ⟨v, s, e, hv, hlab, hs, he, hloceq⟩ := hex
              exact Or.inr ⟨_, td, hlk, v, s, e, hv, hlab, hs, he, hloceq⟩

theorem refLocLoop_uri (db : Database) (reqUri : String) :
    ∀ (items : List Json) (acc res : List Location),
      refLocLoop db reqUri acc items = .ok res →
      ∀ loc ∈ res, loc ∈ acc ∨
        (∃ s, ilookup db.vertexIdToDocument s = some loc.uri) ∨
        loc.uri = reqUri := by
  intro items
  induction items with
  | nil =>
    intro acc res h loc hloc
    simp only [refLocLoop] at h
    cases h
    exact Or.inl hloc
  | cons ie rest ih =>
    intro acc res h loc hloc
    simp only [refLocLoop] at h
    cases hlk : alookup db.documents
        ((ie.shard.bind (fun s => ilookup db.vertexIdToDocument s)).getD reqUri) with
    | none =>
      rw [hlk] at h
      exact ih acc res h loc hloc
    | some td =>
      rw [hlk] at h
      dsimp only at h
      cases hivs : ie.inVs with
      | none =>
        rw [hivs] at h
        cases h
      | some ids =>
        rw [hivs] at h
        dsimp only at h
        cases hrc : refRangeCollect td
            ((ie.shard.bind (fun s => ilookup db.vertexIdToDocument s)).getD reqUri)
            acc ids with
        | error e0 =>
          cases e0
          rw [hrc] at h
          cases h
        | ok acc2 =>
          rw [hrc] at h
          cases ih acc2 res h loc hloc with
          | inr hex => exact Or.inr hex
          | inl hmem =>
            cases refRangeCollect_from td _ ids acc acc2 hrc loc hmem with
            | inl hacc => exact Or.inl hacc
            | inr hex =>
              obtain ⟨v, s, e, -, -, -, -, hloceq⟩ := hex
              cases hb : ie.shard.bind (fun s => ilookup db.vertexIdToDocument s) with
              | some t0 =>
                refine Or.inr (Or.inl ?_)
                have hgd : (ie.shard.bind
                    (fun s => ilookup db.vertexIdToDocument s)).getD reqUri = t0 := by
                  rw [hb]
                  rfl
                cases hsh : ie.shard with
                | none =>
                  rw [hsh] at hb
                  cases hb
                | some s0 =>
                  have hb' := hb
                  rw [hsh] at hb'
                  dsimp only [Option.bind] at hb'
                  refine ⟨s0, ?_⟩
                  rw [hloceq]
                  dsimp only
                  rw [hgd]
                  exact hb'
              | none =>
                refine Or.inr (Or.inr ?_)
                rw [hloceq]
                dsimp only
                rw [hb]
                rfl

theorem referencesResult_ok_inv {db : Database} {uri : String} {pos1 : Pos}
    {locs : List Location} (h : referencesResult db uri pos1 = .ok (some locs)) :
    ∃ items, refLocLoop db uri [] items = .ok locs := by
  unfold referencesResult at h
  split at h
  · simp at h
  · split at h
    · simp at h
    · split at h
      · simp at h
      · split at h
        · simp at h
        · simp at h
        · split at h
          · simp at h
          · split at h
            · simp at h
            · split at h
              · simp at h
              · split at h
                · simp at h
                · dsimp only at h
                  split at h
                  · simp at h
                  · split at h
                    · simp at h
                    · rename_i locs0 heq
                      split at h
                      · simp at h
                      · simp only [Except.ok.injEq, Option.some.injEq] at h
                        subst h
                        exact ⟨_, heq⟩

theorem definitionsResult_ok_inv {db : Database} {uri : String} {pos1 : Pos}
    {locs : List Location} (h : definitionsResult db uri pos1 = .ok (some locs)) :
    ∃ docData ids, defRangeLoop db docData pos1 [] ids = .ok locs := by
  unfold definitionsResult at h
  split at h
  · simp at h
  · split at h
    · simp at h
    · split at h
      · simp at h
      · split at h
        · simp at h
        · rename_i locs0 heq
          split at h
          · simp at h
          · simp only [Except.ok.injEq, Option.some.injEq] at h
            subst h
            exact ⟨_, _, heq⟩

theorem defInnerItems_from (db : Database) (docUri : String) (defData : DocData)
    (refOutV : Option Int) :
    ∀ (items : List Json) (acc res : List Location),
      defInnerItems db docUri defData refOutV acc items = .ok res →
      ∀ loc ∈ res, loc ∈ acc ∨
        ∃ v s e, v ∈ defData.vertices ∧ v.start = some s ∧ v.end_ = some e ∧
          loc.rstart = ⟨s.line - 1, s.character - 1⟩ ∧
          loc.rend = ⟨e.line - 1, e.character - 1⟩ := by
  intro items
  induction items with
  | nil =>
    intro acc res h loc hloc
    simp only [defInnerItems] at h
    cases h
    exact Or.inl hloc
  | cons definedItem rest ih =>
    intro acc res h loc hloc
    simp only [defInnerItems] at h
    by_cases hc : definedItem.label = some "item" ∧ definedItem.outV = refOutV ∧
        definedItem.property = some "definitions"
    · rw [if_pos hc] at h
      cases hivs : definedItem.inVs with
      | none =>
        rw [hivs] at h
        cases h
      | some ivs =>
        rw [hivs] at h
        dsimp only at h
        cases hf : defData.vertices.find?
            (fun v => match v.id with
                      | some i => ivs.contains i
                      | none => false) with
        | none =>
          rw [hf] at h
          exact ih acc res h loc hloc
        | some rv =>
          rw [hf] at h
          dsimp only at h
          cases hcv : convertRange rv with
          | error e0 =>
            cases e0
            rw [hcv] at h
            cases h
          | ok pq =>
            obtain ⟨p1, q1⟩ := pq
            rw [hcv] at h
            dsimp only at h
            cases ih _ res h loc hloc with
            | inr hex => exact Or.inr hex
            | inl hmem =>
              rcases List.mem_append.mp hmem with hacc | hnew
              · exact Or.inl hacc
              · have hmemv := List.mem_of_find?_eq_some hf
                obtain ⟨s, e, hs, he, hp, hq⟩ := convertRange_inv hcv
                have hle : loc = ⟨(definedItem.shard.bind
                    (fun s => ilookup db.vertexIdToDocument s)).getD docUri,
                    p1, q1⟩ := by simpa using hnew
                refine Or.inr ⟨rv, s, e, hmemv, hs, he, ?_, ?_⟩
                · rw [hle]
                  dsimp only
                  exact hp
                · rw [hle]
                  dsimp only
                  exact hq
    · rw [if_neg hc] at h
      exact ih acc res h loc hloc

theorem defDocsLoop_from (db : Database) (refOutV : Option Int) :
    ∀ (docs : List (String × DocData)) (acc res : List Location),
      defDocsLoop db refOutV acc docs = .ok res →
      ∀ loc ∈ res, loc ∈ acc ∨
        ∃ u' d', (u', d') ∈ docs ∧
          ∃ v s e, v ∈ d'.vertices ∧ v.start = some s ∧ v.end_ = some e ∧
            loc.rstart = ⟨s.line - 1, s.character - 1⟩ ∧
            loc.rend = ⟨e.line - 1, e.character - 1⟩ := by
  intro docs
  induction docs with
  | nil =>
    intro acc res h loc hloc
    simp only [defDocsLoop] at h
    cases h
    exact Or.inl hloc
  | cons kv rest ih =>
    obtain ⟨docUri, defData⟩ := kv
    intro acc res h loc hloc
    simp only [defDocsLoop] at h
    cases hf : defData.edges.find? (fun e => decide (e.label = some "contains")) with
    | none =>
      rw [hf] at h
      cases ih acc res h loc hloc with
      | inl hacc => exact Or.inl hacc
      | inr hex =>
        obtain ⟨u', d', hmem, rest'⟩ := hex
        exact Or.inr ⟨u', d', List.mem_cons_of_mem _ hmem, rest'⟩
    | some ce =>
      rw [hf] at h
      dsimp only at h
      cases hinner : defInnerItems db docUri defData refOutV acc defData.edges with
      | error e0 =>
        cases e0
        rw [hinner] at h
        cases h
      | ok acc2 =>
        rw [hinner] at h
        cases ih acc2 res h loc hloc with
        | inr hex =>
          obtain ⟨u', d', hmem, rest'⟩ := hex
          exact Or.inr ⟨u', d', List.mem_cons_of_mem _ hmem, rest'⟩
        | inl hmem2 =>
          cases defInnerItems_from db docUri defData refOutV defData.edges acc
              acc2 hinner loc hmem2 with
          | inl hacc => exact Or.inl hacc
          | inr hex =>
            obtain ⟨v, s, e, hv, hs, he, hp, hq⟩ := hex
            exact Or.inr ⟨docUri, defData, List.mem_cons_self _ _,
              v, s, e, hv, hs, he, hp, hq⟩

theorem defRefItems_from (db : Database) (rangeId : Option Int) :
    ∀ (items : List Json) (acc res : List Location),
      defRefItems db rangeId acc items = .ok res →
      ∀ loc ∈ res, loc ∈ acc ∨
        ∃ u' d', (u', d') ∈ db.documents ∧
          ∃ v s e, v ∈ d'.vertices ∧ v.start = some s ∧ v.end_ = some e ∧
            loc.rstart = ⟨s.line - 1, s.character - 1⟩ ∧
            loc.rend = ⟨e.line - 1, e.character - 1⟩ := by
  intro items
  induction items with
  | nil =>
    intro acc res h loc hloc
    simp only [defRefItems] at h
    cases h
    exact Or.inl hloc
  | cons refItem rest ih =>
    intro acc res h loc hloc
    simp only [defRefItems] at h
    split at h
    · cases hdocs : defDocsLoop db refItem.outV acc db.documents with
      | error e0 =>
        cases e0
        rw [hdocs] at h
        cases h
      | ok acc2 =>
        rw [hdocs] at h
        cases ih acc2 res h loc hloc with
        | inr hex => exact Or.inr hex
        | inl hmem =>
          cases defDocsLoop_from db refItem.outV db.documents acc acc2 hdocs
              loc hmem with
          | inl hacc => exact Or.inl hacc
          | inr hex => exact Or.inr hex
    · exact ih acc res h loc hloc

theorem defRangeLoop_from (db : Database) (docData : DocData) (pos1 : Pos) :
    ∀ (ids : List Int) (acc res : List Location),
      defRangeLoop db docData pos1 acc ids = .ok res →
      ∀ loc ∈ res, loc ∈ acc ∨
        ∃ u' d', (u', d') ∈ db.documents ∧
          ∃ v s e, v ∈ d'.vertices ∧ v.start = some s ∧ v.end_ = some e ∧
            loc.rstart = ⟨s.line - 1, s.character - 1⟩ ∧
            loc.rend = ⟨e.line - 1, e.character - 1⟩ := by
  intro ids
  induction ids with
  | nil =>
    intro acc res h loc hloc
    simp only [defRangeLoop] at h
    cases h
    exact Or.inl hloc
  | cons rid rest ih =>
    intro acc res h loc hloc
    simp only [defRangeLoop] at h
    cases hf : docData.vertices.find? (fun v => decide (v.id = some rid)) with
    | none =>
      rw [hf] at h
      exact ih acc res h loc hloc
    | some range =>
      rw [hf] at h
      dsimp only at h
      split at h
      · exact ih acc res h loc hloc
      · cases hrm : rangeMatches pos1 range with
        | error e0 =>
          cases e0
          rw [hrm] at h
          cases h
        | ok b =>
          rw [hrm] at h
          cases b with
          | false =>
            dsimp only at h
            exact ih acc res h loc hloc
          | true =>
            dsimp only at h
            cases hri : defRefItems db range.id acc docData.edges with
            | error e0 =>
              cases e0
              rw [hri] at h
              cases h
            | ok acc2 =>
              rw [hri] at h
              cases ih acc2 res h loc hloc with
              | inr hex => exact Or.inr hex
              | inl hmem =>
                cases defRefItems_from db range.id docData.edges acc acc2 hri
                    loc hmem with
                | inl hacc => exact Or.inl hacc
                | inr hex => exact Or.inr hex

/-- C1 (confirmed): the coordinate convention round-trips exactly —
(a) the matcher all three resolvers apply to the incremented position
accepts a stored range with 1-based bounds `s`/`e` iff
`s ≤ (line+1, character+1) ≤ e` holds on the line and character components
independently; (b) every location the reference resolver returns carries
the bounds of a stored `range` vertex with one subtracted from line and
character of both endpoints; (c) likewise for every location the
definition resolver returns (the vertex it converts is the one whose
bounds it reads; the definition resolver performs no label re-check). -/
theorem claim1_coordinate_round_trip :
    (∀ (p : Pos) (v : Json) (s e : Pos), v.start = some s → v.end_ = some e →
      (rangeMatches ⟨p.line + 1, p.character + 1⟩ v = .ok true ↔
        (s.line ≤ p.line + 1 ∧ p.line + 1 ≤ e.line ∧
         s.character ≤ p.character + 1 ∧ p.character + 1 ≤ e.character))) ∧
    (∀ (db : Database) (uri : String) (p : Pos) (locs : List Location)
       (q : Database) (r : Pos),
      getReferencesData db uri p = (.ok (some locs), q, r) →
      ∀ loc ∈ locs, ∃ u' d' v s e, (u', d') ∈ db.documents ∧ v ∈ d'.vertices ∧
        v.label = some "range" ∧ v.start = some s ∧ v.end_ = some e ∧
        loc.rstart = ⟨s.line - 1, s.character - 1⟩ ∧
        loc.rend = ⟨e.line - 1, e.character - 1⟩) ∧
    (∀ (db : Database) (uri : String) (p : Pos) (locs : List Location)
       (q : Database) (r : Pos),
      getDefinitionData db uri p = (.ok (some locs), q, r) →
      ∀ loc ∈ locs, ∃ u' d' v s e, (u', d') ∈ db.documents ∧ v ∈ d'.vertices ∧
        v.start = some s ∧ v.end_ = some e ∧
        loc.rstart = ⟨s.line - 1, s.character - 1⟩ ∧
        loc.rend = ⟨e.line - 1, e.character - 1⟩) := by
  refine ⟨?_, ?_, ?_⟩
  · intro p v s e hs he
    unfold rangeMatches
    rw [hs, he]
    dsimp only
    split
    · rename_i h1
      constructor
      · intro hfalse
        simp at hfalse
      · intro hrhs
        exact absurd hrhs.1 (by omega)
    · rename_i h1
      simp only [Except.ok.injEq, decide_eq_true_eq]
      omega
  · intro db uri p locs q r h loc hloc
    have hres : referencesResult db (decodeURIComponent uri)
        ⟨p.line + 1, p.character + 1⟩ = .ok (some locs) := congrArg Prod.fst h
    obtain ⟨items, hloop⟩ := referencesResult_ok_inv hres
    cases refLocLoop_from db (decodeURIComponent uri) items [] locs hloop loc
        hloc with
    | inl habs => cases habs
    | inr hex =>
      obtain ⟨u', d', hlk, v, s, e, hv, hlab, hs, he, hloceq⟩ := hex
      refine ⟨u', d', v, s, e, alookup_mem hlk, hv, hlab, hs, he, ?_, ?_⟩
      · rw [hloceq]
      · rw [hloceq]
  · intro db uri p locs q r h loc hloc
    have hres : definitionsResult db (decodeURIComponent uri)
        ⟨p.line + 1, p.character + 1⟩ = .ok (some locs) := congrArg Prod.fst h
    obtain ⟨docData, ids, hloop⟩ := definitionsResult_ok_inv hres
    cases defRangeLoop_from db docData ⟨p.line + 1, p.character + 1⟩ ids [] locs
        hloop loc hloc with
    | inl habs => cases habs
    | inr hex =>
      obtain ⟨u', d', hmem, v, s, e, hv, hs, he, hp, hq⟩ := hex
      exact ⟨u', d', v, s, e, hmem, hv, hs, he, hp, hq⟩

/-- C1 (witness): the round-trip theorem applied to the healthy store
`dbGood` — the matcher instance at caller position (1,3) against the range
(2,2)–(2,6), and the provenance of the location the reference resolver
returns there. -/
theorem claim1_coordinate_round_trip_witness :
    (rangeMatches ⟨(1 : Int) + 1, (3 : Int) + 1⟩ rangeA = .ok true ↔
      ((2 : Int) ≤ 1 + 1 ∧ (1 : Int) + 1 ≤ 2 ∧ (2 : Int) ≤ 3 + 1 ∧
       (3 : Int) + 1 ≤ 6)) ∧
    (∃ u' d' v s e, (u', d') ∈ dbGood.documents ∧ v ∈ d'.vertices ∧
      v.label = some "range" ∧ v.start = some s ∧ v.end_ = some e ∧
      (⟨"a", ⟨1, 1⟩, ⟨1, 5⟩⟩ : Location).rstart = ⟨s.line - 1, s.character - 1⟩ ∧
      (⟨"a", ⟨1, 1⟩, ⟨1, 5⟩⟩ : Location).rend = ⟨e.line - 1, e.character - 1⟩) :=
  ⟨claim1_coordinate_round_trip.1 ⟨1, 3⟩ rangeA ⟨2, 2⟩ ⟨2, 6⟩ rfl rfl,
   claim1_coordinate_round_trip.2.1 dbGood "a" ⟨1, 3⟩ [⟨"a", ⟨1, 1⟩, ⟨1, 5⟩⟩]
     dbGood ⟨2, 4⟩ rfl ⟨"a", ⟨1, 1⟩, ⟨1, 5⟩⟩ (by simp)⟩

/-- C7 (amended): when the reference resolver emits a location, the owning
document is resolved through the `item` edge's `shard` field via the
global id→uri map, and the fallback owner — used when the `shard` field is
absent or unresolvable — is the decoded *request* document uri, not the
shard in which the item edge was found during the all-shards scan. -/
theorem claim7_owner_is_shard_or_request_uri :
    ∀ (db : Database) (uri : String) (p : Pos) (locs : List Location)
      (q : Database) (r : Pos),
      getReferencesData db uri p = (.ok (some locs), q, r) →
      ∀ loc ∈ locs,
        (∃ s, ilookup db.vertexIdToDocument s = some loc.uri) ∨
        loc.uri = decodeURIComponent uri := by
  intro db uri p locs q r h loc hloc
  have hres : referencesResult db (decodeURIComponent uri)
      ⟨p.line + 1, p.character + 1⟩ = .ok (some locs) := congrArg Prod.fst h
  obtain ⟨items, hloop⟩ := referencesResult_ok_inv hres
  cases refLocLoop_uri db (decodeURIComponent uri) items [] locs hloop loc
      hloc with
  | inl habs => cases habs
  | inr hres2 => exact hres2

/-- C7 (witness): the owner-resolution theorem applied to the concrete
two-document store, where the emitted location's owner is the request
document `"a"`. -/
theorem claim7_owner_is_shard_or_request_uri_witness :
    (∃ s, ilookup dbC7.vertexIdToDocument s =
        some (⟨"a", ⟨98, 0⟩, ⟨98, 4⟩⟩ : Location).uri) ∨
    (⟨"a", ⟨98, 0⟩, ⟨98, 4⟩⟩ : Location).uri = decodeURIComponent "a" :=
  claim7_owner_is_shard_or_request_uri dbC7 "a" ⟨0, 0⟩
    [⟨"a", ⟨98, 0⟩, ⟨98, 4⟩⟩] dbC7 ⟨1, 1⟩ rfl ⟨"a", ⟨98, 0⟩, ⟨98, 4⟩⟩ (by simp)
